import Mathlib

/-!
Verification of the ticket-generation core of the `jira-ticket-creator`
repository, as a shallow embedding in Lean 4.

The embedding follows the TypeScript source:
* `src/src/services/ticket/TicketService.ts` — the Response Interpreter
  (`generateTicket`, `parseStructuredResponse`, `safeParseJSON`,
  `stripLeadingTitle`, `validateType`, `validatePriority`,
  `extractTitleFromContent`, `generateTitle`);
* `src/src/services/llm/providers/OllamaProvider.ts` and the Claude/OpenAI
  providers — error normalization in `complete`;
* `src/src/services/llm/LLMFactory.ts` — provider construction;
* `src/server/services/llm/utils/fetchWithTimeout.ts` — the request executor.

Modelling conventions:
* JavaScript strings are modelled as `List Char` (wrapped in `String` at the
  boundaries); `JSON.parse` is modelled by an executable recursive-descent
  parser `jsonParseL` over the JSON grammar, returning `Except` like a
  JavaScript function that can throw.
* TypeScript code that can throw is modelled in the `Except String` monad;
  a `try/catch` is a `match` on that `Except`.
* JS regular-expression operations used by the source are modelled by
  executable scanning functions that implement the exact match semantics of
  the concrete regexes involved (leftmost match, greedy/lazy quantifiers).
* Wall-clock data (`generatedAt`) and network effects are outside the model;
  a provider call is represented by the reply string it produced.
All definitions are structurally recursive (fuelled where needed) so that
concrete inputs evaluate by `decide` / `rfl`.
-/

namespace TicketCore

/-- A few characters written via their code points (backtick, braces,
single quote) so they can be used in pattern positions and comparisons. -/
def bq : Char := Char.ofNat 96

/-- Left curly brace character. -/
def lb : Char := Char.ofNat 123

/-- Right curly brace character. -/
def rb : Char := Char.ofNat 125

/-- Single-quote (apostrophe) character. -/
def sq : Char := Char.ofNat 39

/-- Backslash character. -/
def bsl : Char := '\\'

/-- Convert a `String` literal to the `List Char` the model works on. -/
def lc (s : String) : List Char := s.data

/-- `pat` is a leading run of `cs` (like `String.prototype.startsWith`). -/
def leadsWith : List Char → List Char → Bool
  | [], _ => true
  | _ :: _, [] => false
  | p :: ps, c :: cs => p = c && leadsWith ps cs

/-- Substring search, like `String.prototype.includes`. -/
def containsSub (pat : List Char) : List Char → Bool
  | [] => leadsWith pat []
  | c :: cs => leadsWith pat (c :: cs) || containsSub pat cs

/-- The JavaScript whitespace class `\s` (also the set trimmed by
`String.prototype.trim`): ASCII whitespace plus the Unicode space
separators, NBSP, BOM and the line/paragraph separators. -/
def isJsWs (c : Char) : Bool :=
  c = ' ' || c = '\t' || c = '\n' || c = '\x0b' || c = '\x0c' || c = '\r' ||
  c = '\u00A0' || c = '\u1680' || ('\u2000' ≤ c && c ≤ '\u200A') ||
  c = '\u2028' || c = '\u2029' || c = '\u202F' || c = '\u205F' ||
  c = '\u3000' || c = '\uFEFF'

/-- Drop a trailing run of characters satisfying `p`. -/
def dropTrailWhile (p : Char → Bool) (cs : List Char) : List Char :=
  ((cs.reverse).dropWhile p).reverse

/-- `String.prototype.trim` on character lists. -/
def trimL (cs : List Char) : List Char :=
  dropTrailWhile isJsWs (cs.dropWhile isJsWs)

/-- `String.prototype.trim` on strings. -/
def trimS (s : String) : String := ⟨trimL s.data⟩

/-- JS truthiness of an optional string (`undefined` and `""` are falsy). -/
def strTruthy : Option String → Bool
  | none => false
  | some s => s ≠ ""

/-- `a || b` for an optional string `a` against a default `b`
(JS `||` picks `b` when `a` is `undefined` or `""`). -/
def stringOr (a : Option String) (b : String) : String :=
  match a with
  | some s => if s = "" then b else s
  | none => b

/-! ## JSON values and `JSON.parse`

`Json` is the result type of `JSON.parse`. Numbers keep their source
lexeme: the interpreter never computes with numeric values, it only tests
truthiness, so the lexeme is all the model needs (this avoids encoding
IEEE-754 semantics, which no claim depends on). -/

inductive Json where
  | null
  | bool (b : Bool)
  | num (lexeme : List Char)
  | str (s : List Char)
  | arr (elems : List Json)
  | obj (fields : List (List Char × Json))

/-- JSON whitespace accepted by `JSON.parse` between tokens. -/
def isJsonWs (c : Char) : Bool :=
  c = ' ' || c = '\t' || c = '\n' || c = '\r'

/-- Skip JSON inter-token whitespace. -/
def skipWsJ (cs : List Char) : List Char := cs.dropWhile isJsonWs

/-- Hexadecimal digit value, for `\uXXXX` escapes. -/
def hexVal (c : Char) : Option Nat :=
  if '0' ≤ c && c ≤ '9' then some (c.toNat - 48)
  else if 'a' ≤ c && c ≤ 'f' then some (c.toNat - 87)
  else if 'A' ≤ c && c ≤ 'F' then some (c.toNat - 70)
  else none

/-- The single-character escapes accepted inside JSON string literals. -/
def simpleEsc (c : Char) : Option Char :=
  if c = '"' then some '"'
  else if c = bsl then some bsl
  else if c = '/' then some '/'
  else if c = 'b' then some '\x08'
  else if c = 'f' then some '\x0c'
  else if c = 'n' then some '\n'
  else if c = 'r' then some '\r'
  else if c = 't' then some '\t'
  else none

/-- Parse the body of a JSON string literal (the opening quote already
consumed): returns the decoded characters and the input after the closing
quote. `JSON.parse` rejects raw control characters (code points below
0x20) inside string literals — the fact the repair pass exists for. -/
def parseStrBody : List Char → Except String (List Char × List Char)
  | [] => .error "Unterminated string"
  | c :: rest =>
    if c = '"' then .ok ([], rest)
    else if c = bsl then
      match rest with
      | [] => .error "Unterminated string"
      | e :: rest2 =>
        if e = 'u' then
          match rest2 with
          | h1 :: h2 :: h3 :: h4 :: rest3 =>
            match hexVal h1, hexVal h2, hexVal h3, hexVal h4 with
            | some a, some b, some c2, some d =>
              (parseStrBody rest3).map
                fun p => (Char.ofNat (4096 * a + 256 * b + 16 * c2 + d) :: p.1, p.2)
            | _, _, _, _ => .error "Bad Unicode escape"
          | _ => .error "Bad Unicode escape"
        else
          match simpleEsc e with
          | some c2 => (parseStrBody rest2).map fun p => (c2 :: p.1, p.2)
          | none => .error "Bad escaped character"
    else if c.toNat < 32 then .error "Bad control character in string literal"
    else (parseStrBody rest).map fun p => (c :: p.1, p.2)

/-- Parse the fraction part `.digits` of a JSON number, if present. -/
def parseFrac (cs : List Char) : Except String (List Char × List Char) :=
  match cs with
  | '.' :: r =>
    let ds := r.takeWhile Char.isDigit
    if ds = [] then .error "Unterminated fractional number"
    else .ok ('.' :: ds, r.drop ds.length)
  | _ => .ok ([], cs)

/-- Parse the exponent part of a JSON number, if present. -/
def parseExp (cs : List Char) : Except String (List Char × List Char) :=
  match cs with
  | c :: r =>
    if c = 'e' || c = 'E' then
      let (sgn, r2) :=
        match r with
        | s :: r2 => if s = '+' || s = '-' then ([s], r2) else (([] : List Char), r)
        | [] => ([], r)
      let ds := r2.takeWhile Char.isDigit
      if ds = [] then .error "Exponent part is missing a number"
      else .ok (c :: sgn ++ ds, r2.drop ds.length)
    else .ok ([], cs)
  | [] => .ok ([], cs)

/-- Parse a JSON number, returning its lexeme
(grammar `-?(0|[1-9][0-9]*)(\.[0-9]+)?([eE][+-]?[0-9]+)?`). -/
def parseNum (cs : List Char) : Except String (List Char × List Char) :=
  let (sgn, cs1) :=
    match cs with
    | c :: r => if c = '-' then ([c], r) else (([] : List Char), cs)
    | [] => ([], cs)
  match cs1 with
  | [] => .error "No number after minus sign"
  | c :: r =>
    if c = '0' then
      match parseFrac r with
      | .error e => .error e
      | .ok (fr, r2) =>
        match parseExp r2 with
        | .error e => .error e
        | .ok (ex, r3) => .ok (sgn ++ c :: fr ++ ex, r3)
    else if c.isDigit then
      let ds := r.takeWhile Char.isDigit
      match parseFrac (r.drop ds.length) with
      | .error e => .error e
      | .ok (fr, r2) =>
        match parseExp r2 with
        | .error e => .error e
        | .ok (ex, r3) => .ok (sgn ++ c :: ds ++ fr ++ ex, r3)
    else .error "Unexpected token in JSON"

/-- Match an exact literal (`true`, `false`, `null` tails). -/
def expectLit (lit : List Char) (cs : List Char) (v : Json) :
    Except String (Json × List Char) :=
  if leadsWith lit cs then .ok (v, cs.drop lit.length) else .error "Unexpected token in JSON"

/-- Parse the members of a JSON object (after the opening brace, first
member not yet consumed; the input is known not to start with the closing
brace). `pv` parses one value; `fuel` bounds the number of members. -/
def parseMembersF (pv : List Char → Except String (Json × List Char)) :
    Nat → List Char → Except String (List (List Char × Json) × List Char)
  | 0, _ => .error "Out of fuel"
  | fuel + 1, cs =>
    match skipWsJ cs with
    | [] => .error "Unexpected end of JSON input"
    | c :: rest =>
      if c = '"' then
        match parseStrBody rest with
        | .error e => .error e
        | .ok (key, r2) =>
          match skipWsJ r2 with
          | c2 :: r3 =>
            if c2 = ':' then
              match pv r3 with
              | .error e => .error e
              | .ok (v, r4) =>
                match skipWsJ r4 with
                | c3 :: r5 =>
                  if c3 = ',' then
                    match parseMembersF pv fuel r5 with
                    | .error e => .error e
                    | .ok (fs, r6) => .ok ((key, v) :: fs, r6)
                  else if c3 = rb then .ok ([(key, v)], r5)
                  else .error "Expected comma or closing brace"
                | [] => .error "Unexpected end of JSON input"
            else .error "Expected colon"
          | [] => .error "Unexpected end of JSON input"
      else .error "Expected property name"

/-- Parse the elements of a JSON array (after the opening bracket, first
element not yet consumed; input known not to start with `]`). -/
def parseElemsF (pv : List Char → Except String (Json × List Char)) :
    Nat → List Char → Except String (List Json × List Char)
  | 0, _ => .error "Out of fuel"
  | fuel + 1, cs =>
    match pv cs with
    | .error e => .error e
    | .ok (v, r2) =>
      match skipWsJ r2 with
      | c :: r3 =>
        if c = ',' then
          match parseElemsF pv fuel r3 with
          | .error e => .error e
          | .ok (vs, r4) => .ok (v :: vs, r4)
        else if c = ']' then .ok ([v], r3)
        else .error "Expected comma or closing bracket"
      | [] => .error "Unexpected end of JSON input"

/-- Parse one JSON value. Structural recursion on `fuel` (one unit per
nesting level), so this reduces in the kernel. -/
def parseVal : Nat → List Char → Except String (Json × List Char)
  | 0, _ => .error "Out of fuel"
  | fuel + 1, cs =>
    match skipWsJ cs with
    | [] => .error "Unexpected end of JSON input"
    | c :: rest =>
      if c = lb then
        match skipWsJ rest with
        | c2 :: r2 =>
          if c2 = rb then .ok (.obj [], r2)
          else
            match parseMembersF (parseVal fuel) (rest.length + 1) rest with
            | .error e => .error e
            | .ok (fs, r3) => .ok (.obj fs, r3)
        | [] => .error "Unexpected end of JSON input"
      else if c = '[' then
        match skipWsJ rest with
        | c2 :: r2 =>
          if c2 = ']' then .ok (.arr [], r2)
          else
            match parseElemsF (parseVal fuel) (rest.length + 1) rest with
            | .error e => .error e
            | .ok (vs, r3) => .ok (.arr vs, r3)
        | [] => .error "Unexpected end of JSON input"
      else if c = '"' then (parseStrBody rest).map fun p => (.str p.1, p.2)
      else if c = 't' then expectLit (lc "rue") rest (.bool true)
      else if c = 'f' then expectLit (lc "alse") rest (.bool false)
      else if c = 'n' then expectLit (lc "ull") rest .null
      else if c = '-' || c.isDigit then (parseNum (c :: rest)).map fun p => (.num p.1, p.2)
      else .error "Unexpected token in JSON"

/-- Model of `JSON.parse`: parse one value, then require only whitespace
to remain. -/
def jsonParseL (cs : List Char) : Except String Json :=
  match parseVal (cs.length + 1) cs with
  | .error e => .error e
  | .ok (v, rest) =>
    if skipWsJ rest = [] then .ok v
    else .error "Unexpected non-whitespace character after JSON data"

/-! ## The repair pass of `safeParseJSON`

`safeParseJSON` first tries `JSON.parse` directly; on failure it applies
the global replacement `str.replace(/"((?:[^"\\]|\\.)*)"/gs, ...)`, which
scans for string-literal-shaped spans and escapes raw newline / carriage
return / tab characters inside them, then parses again. The scanner below
implements that regex's semantics: at each position, a quote opens a span
if a closing quote is reachable through body characters (`[^"\\]` or a
backslash followed by any character, dotAll); an unclosed quote matches
nothing and scanning resumes at the next character. -/

/-- Try to match the regex body `(?:[^"\\]|\\.)*"` starting right after an
opening quote: returns the body (escape pairs kept verbatim) and the
input after the closing quote. -/
def matchStrLit : List Char → Option (List Char × List Char)
  | [] => none
  | c :: rest =>
    if c = '"' then some ([], rest)
    else if c = bsl then
      match rest with
      | [] => none
      | e :: rest2 => (matchStrLit rest2).map fun p => (c :: e :: p.1, p.2)
    else (matchStrLit rest).map fun p => (c :: p.1, p.2)

/-- The replacement applied to a captured string body: escape literal
newline, carriage-return and tab characters (in that order, as three
chained `String.prototype.replace` calls — they commute since each output
character differs from the remaining targets). -/
def escCtlChar (c : Char) : List Char :=
  if c = '\n' then [bsl, 'n']
  else if c = '\r' then [bsl, 'r']
  else if c = '\t' then [bsl, 't']
  else [c]

/-- Body-wise control-character escaping. -/
def escapeCtl (cs : List Char) : List Char := cs.flatMap escCtlChar

/-- Split at the first double quote: `cs = pre ++ '"' :: rest` with no
quote in `pre`. A span can only start at a quote, so the scan jumps from
quote to quote (characters before the next quote can never start a
match). -/
def splitAtQuote : List Char → Option (List Char × List Char)
  | [] => none
  | c :: rest =>
    if c = '"' then some ([], rest)
    else (splitAtQuote rest).map fun p => (c :: p.1, p.2)

/-- One fuelled pass of the repair scan; the fuel bounds the number of
quotes processed (each step consumes at least one). An opening quote
with no reachable closing quote matches nothing and scanning resumes
after it, as the regex engine does. -/
def repairQ : Nat → List Char → List Char
  | 0, cs => cs
  | fuel + 1, cs =>
    match splitAtQuote cs with
    | none => cs
    | some (pre, rest) =>
      match matchStrLit rest with
      | some (body, rest2) => pre ++ '"' :: (escapeCtl body ++ '"' :: repairQ fuel rest2)
      | none => pre ++ '"' :: repairQ fuel rest

/-- The repair replacement of `safeParseJSON`'s catch branch. -/
def repairL (cs : List Char) : List Char := repairQ cs.length cs

/-- `TicketService.safeParseJSON`: parse, and on failure repair and
re-parse (the second failure propagates to the caller's catch). -/
def safeParseJSON (cs : List Char) : Except String Json :=
  match jsonParseL cs with
  | .ok v => .ok v
  | .error _ => jsonParseL (repairL cs)

/-! ## Extraction of the structured block

`parseStructuredResponse` extracts a candidate span with
`result.content.match(/```(?:json)?\s*([\s\S]*?)\s*```/)` falling back to
`result.content.match(/(\{[\s\S]*\})/)`, and then uses
`jsonMatch[1] || jsonMatch[0]`. -/

/-- Find the first closing fence in `cs`: `cs = pre ++ fence ++ post` with
no fence starting inside `pre`. -/
def splitAtFence : List Char → Option (List Char × List Char)
  | [] => none
  | c :: rest =>
    if c = bq then
      match rest with
      | c2 :: c3 :: rest3 =>
        if c2 = bq && c3 = bq then some ([], rest3)
        else (splitAtFence rest).map fun p => (c :: p.1, p.2)
      | _ => (splitAtFence rest).map fun p => (c :: p.1, p.2)
    else (splitAtFence rest).map fun p => (c :: p.1, p.2)

/-- Try the fenced-block regex at the start of `cs`; on success return the
capture group and the full match. After the opening fence and optional
`json` tag, the greedy `\s*` takes the maximal whitespace run, the lazy
capture extends to the earliest closing fence, and the second greedy
`\s*` absorbs the whitespace run immediately before that fence. -/
def fenceAt (cs : List Char) : Option (List Char × List Char) :=
  match cs with
  | c1 :: c2 :: c3 :: rest =>
    if c1 = bq && c2 = bq && c3 = bq then
      let hasTag := leadsWith (lc "json") rest
      let rest2 := if hasTag then rest.drop 4 else rest
      let ws := rest2.takeWhile isJsWs
      let body := rest2.drop ws.length
      match splitAtFence body with
      | none => none
      | some (pre, _post) =>
        let cap := dropTrailWhile isJsWs pre
        let fullLen := 3 + (if hasTag then 4 else 0) + ws.length + pre.length + 3
        some (cap, cs.take fullLen)
    else none
  | _ => none

/-- Leftmost fenced-block match (capture, full match). -/
def findFence : List Char → Option (List Char × List Char)
  | [] => none
  | c :: rest =>
    match fenceAt (c :: rest) with
    | some r => some r
    | none => findFence rest

/-- Prefix of `cs` up to and including its last right brace. -/
def takeToLastRB (cs : List Char) : List Char :=
  (cs.reverse.dropWhile (fun c => c ≠ rb)).reverse

/-- The fallback regex `/(\{[\s\S]*\})/`: leftmost `{` that has a later
`}`, then the greedy `[\s\S]*` extends the span to the last `}` of the
whole text. -/
def braceSpan : List Char → Option (List Char)
  | [] => none
  | c :: rest =>
    if c = lb && rest.contains rb then some (c :: takeToLastRB rest)
    else braceSpan rest

/-- The candidate span handed to `safeParseJSON`
(`jsonMatch[1] || jsonMatch[0]`: an empty fence capture falls back to the
full fence match, brace captures are never empty). -/
def extractCandidate (cs : List Char) : Option (List Char) :=
  match findFence cs with
  | some (cap, full) => some (if cap = [] then full else cap)
  | none => braceSpan cs

/-! ## Post-processing helpers -/

/-- The `\n?\n?` tail of the leading-title regex. -/
def dropUpTo2Nl (cs : List Char) : List Char :=
  match cs with
  | '\n' :: '\n' :: r => r
  | '\n' :: r => r
  | r => r

/-- Match `\s+[^\n]+\n?\n?` at `rest` (the text after a leading `##`),
returning the remainder after the match. When everything after the
whitespace run is exhausted, the greedy `\s+` backtracks until `[^\n]+`
can take a non-newline whitespace character. -/
def h2StripRest (rest : List Char) : Option (List Char) :=
  let ws := rest.takeWhile isJsWs
  let after := rest.drop ws.length
  if ws = [] then none
  else if after ≠ [] then
    let body := after.takeWhile (fun c => c ≠ '\n')
    some (dropUpTo2Nl (after.drop body.length))
  else
    match (ws.drop 1).reverse.dropWhile (fun c => c = '\n') with
    | [] => none
    | _ :: _ =>
      let tailN := ws.reverse.takeWhile (fun c => c = '\n')
      some (List.replicate (tailN.length - min tailN.length 2) '\n')

/-- `TicketService.stripLeadingTitle`:
`content.replace(/^##\s+[^\n]+\n?\n?/, '').trim()`. -/
def stripLeadingTitleL (cs : List Char) : List Char :=
  match cs with
  | c1 :: c2 :: rest =>
    if c1 = '#' ∧ c2 = '#' then
      match h2StripRest rest with
      | some remainder => trimL remainder
      | none => trimL cs
    else trimL cs
  | _ => trimL cs

/-- String wrapper for `stripLeadingTitleL`. -/
def stripLeadingTitleS (s : String) : String := ⟨stripLeadingTitleL s.data⟩

/-- Try the multiline regex `##\s+(.+)$` at a line start: after `##`, a
nonempty whitespace run (which may cross line breaks), then the capture
`(.+)` takes the rest of the line it lands on. -/
def h2TitleAt : List Char → Option (List Char)
  | c1 :: c2 :: rest =>
    if c1 = '#' ∧ c2 = '#' then
      let ws := rest.takeWhile isJsWs
      let after := rest.drop ws.length
      if ws = [] then none
      else if after ≠ [] then some (after.takeWhile (fun c => c ≠ '\n'))
      else
        match (ws.drop 1).reverse.dropWhile (fun c => c = '\n') with
        | [] => none
        | c :: _ => some [c]
    else none
  | _ => none

/-- Scan the later line starts for the `^##\s+(.+)$` match. -/
def findH2Go : List Char → Option (List Char)
  | [] => none
  | c :: rest =>
    if c = '\n' then
      match h2TitleAt rest with
      | some t => some t
      | none => findH2Go rest
    else findH2Go rest

/-- First multiline match of `/^##\s+(.+)$/m` (position 0, then after
each newline). -/
def findH2 (cs : List Char) : Option (List Char) :=
  match h2TitleAt cs with
  | some t => some t
  | none => findH2Go cs

/-- `firstLine.replace(/^#+\s*/, '')`. -/
def stripHashesWs (cs : List Char) : List Char :=
  match cs with
  | c :: _ =>
    if c = '#' then
      let hs := cs.takeWhile (fun x => x = '#')
      let r := cs.drop hs.length
      r.drop (r.takeWhile isJsWs).length
    else cs
  | _ => cs

/-- `TicketService.extractTitleFromContent`: first H2 heading anywhere
(multiline), else the first line with leading hashes stripped, trimmed
and cut to 100 characters. -/
def extractTitleL (cs : List Char) : List Char :=
  match findH2 cs with
  | some cap => trimL cap
  | none => (trimL (stripHashesWs (cs.takeWhile (fun c => c ≠ '\n')))).take 100

/-- String wrapper for `extractTitleL`. -/
def extractTitleS (s : String) : String := ⟨extractTitleL s.data⟩

/-! ## Data model

`TicketInput` keeps the fields the interpreter reads (`description`,
`title`, `type`, `priority`, `labels`); the prompt-only fields
(`template`, `writingStyle`) never reach the Response Interpreter and are
omitted. `type` and `priority` are carried as strings, as in the
JavaScript runtime; the route layer's zod schema constrains them to the
fixed enumerations, which theorems take as hypotheses where needed.
`generatedAt` (wall clock) is outside the model. -/

structure TicketInput where
  description : String
  title : Option String
  type : Option String
  priority : Option String
  labels : List String
deriving DecidableEq

/-- The `aiSuggested` flags of a generated ticket's metadata. -/
structure AISuggested where
  type : Bool
  priority : Bool
  labels : Bool
deriving DecidableEq

/-- Metadata of a generated ticket. -/
structure TicketMetadata where
  type : String
  priority : String
  labels : List String
  model : String
  aiSuggested : Option AISuggested
deriving DecidableEq

/-- A generated ticket. `title` is carried as a `Json` value: the source
assigns `parsed.title` unchecked, so a truthy non-string parsed title
flows into the record as-is. -/
structure GeneratedTicket where
  content : String
  title : Json
  metadata : TicketMetadata

/-- `VALID_TYPES` from `TicketService.ts`. -/
def VALID_TYPES : List String := ["Task", "Story", "Bug", "Spike", "Epic"]

/-- `VALID_PRIORITIES` from `TicketService.ts`. -/
def VALID_PRIORITIES : List String := ["Low", "Medium", "High", "Critical"]

/-- `TicketService.validateType`: keep a parsed value only if it is a
string in the fixed enumeration. -/
def validateType (v : Option Json) : Option String :=
  match v with
  | some (.str s) => if (⟨s⟩ : String) ∈ VALID_TYPES then some ⟨s⟩ else none
  | _ => none

/-- `TicketService.validatePriority`. -/
def validatePriority (v : Option Json) : Option String :=
  match v with
  | some (.str s) => if (⟨s⟩ : String) ∈ VALID_PRIORITIES then some ⟨s⟩ else none
  | _ => none

/-- Is a JSON number lexeme one of the zero spellings (`0`, `-0`, `0.0`,
`0e9`, ...)? Only these make the number falsy. -/
def zeroLexeme (cs : List Char) : Bool :=
  let m := match cs with
    | c :: r => if c = '-' then r else cs
    | [] => cs
  (m.takeWhile (fun c => c ≠ 'e' && c ≠ 'E')).all (fun c => c = '0' || c = '.')

/-- JS truthiness of a parsed JSON value. -/
def jsTruthy : Json → Bool
  | .null => false
  | .bool b => b
  | .num l => !(zeroLexeme l)
  | .str s => s ≠ []
  | .arr _ => true
  | .obj _ => true

/-- Property lookup on object fields; `JSON.parse` keeps the last
occurrence of a duplicated key. -/
def lookupLast (fs : List (List Char × Json)) (k : List Char) : Option Json :=
  match fs with
  | [] => none
  | (k2, v) :: rest =>
    match lookupLast rest k with
    | some r => some r
    | none => if k2 = k then some v else none

/-- JS property access `parsed.k` for non-null values: a key lookup on
objects, `undefined` on everything else (access on `null` throws and is
handled separately). -/
def jsonLookup (j : Json) (k : String) : Option Json :=
  match j with
  | .obj fs => lookupLast fs k.data
  | _ => none

/-- The `detectedLabels` computation: `Array.isArray(parsed.labels)`,
filter to strings, cap at 10. -/
def extractLabels (parsed : Json) : List String :=
  match jsonLookup parsed "labels" with
  | some (.arr xs) =>
    (xs.filterMap (fun j => match j with | .str s => some (⟨s⟩ : String) | _ => none)).take 10
  | _ => []

/-! ## The Response Interpreter -/

/-- The metadata assembled on the parsed path of
`parseStructuredResponse` (lines 394–405 of `TicketService.ts`):
`detectedX || input.x || default`, labels from the parsed block when
nonempty, and the `aiSuggested` flags. -/
def mergedMetadata (parsed : Json) (input : TicketInput) (model : String) : TicketMetadata :=
  let detectedType := validateType (jsonLookup parsed "type")
  let detectedPriority := validatePriority (jsonLookup parsed "priority")
  let detectedLabels := extractLabels parsed
  { type := stringOr detectedType (stringOr input.type "Task")
  , priority := stringOr detectedPriority (stringOr input.priority "Medium")
  , labels := if detectedLabels ≠ [] then detectedLabels else input.labels
  , model := model
  , aiSuggested := some
      { type := !(strTruthy input.type) && detectedType.isSome
      , priority := !(strTruthy input.priority) && detectedPriority.isSome
      , labels := decide (input.labels = []) && decide (detectedLabels ≠ []) } }

/-- Extraction plus `safeParseJSON`: the front of the try block
(`throw new Error('No JSON found in response')` when no candidate span
exists). -/
def extractParse (reply : String) : Except String Json :=
  match extractCandidate reply.data with
  | none => .error "No JSON found in response"
  | some cand => safeParseJSON cand

/-- `parsed.content || result.content`, to which `.trim()` is applied: a
truthy non-string `parsed.content` makes the `.trim()` call throw. -/
def contentOf (parsed : Json) (reply : String) : Except String String :=
  match jsonLookup parsed "content" with
  | some j =>
    if jsTruthy j then
      match j with
      | .str s => .ok ⟨s⟩
      | _ => .error "TypeError: trim is not a function"
    else .ok reply
  | none => .ok reply

/-- `parsed.title || input.title || extractTitleFromContent(parsed.content
|| result.content)`; a truthy parsed title is used as-is (whatever its
shape). -/
def titleOf (parsed : Json) (input : TicketInput) (contentStr : String) : Json :=
  let fallback : Json :=
    if strTruthy input.title then .str (input.title.getD "").data
    else .str (extractTitleL contentStr.data)
  match jsonLookup parsed "title" with
  | some j => if jsTruthy j then j else fallback
  | none => fallback

/-- Is a parsed value JSON `null`? (Property access on `null` throws.) -/
def isNullJ : Json → Bool
  | .null => true
  | _ => false

/-- The try block of `parseStructuredResponse`: any `.error` is an
exception reaching the catch. Property access on a parsed `null` throws
(`parsed.type` is the first access). -/
def tryParseStructured (reply model : String) (input : TicketInput) :
    Except String GeneratedTicket :=
  match extractParse reply with
  | .error e => .error e
  | .ok parsed =>
    if isNullJ parsed then .error "TypeError: Cannot read properties of null"
    else
      match contentOf parsed reply with
      | .error e => .error e
      | .ok contentStr =>
        .ok { content := trimS contentStr
            , title := titleOf parsed input contentStr
            , metadata := mergedMetadata parsed input model }

/-- The catch branch of `parseStructuredResponse`: the whole reply as
content, user metadata with hard defaults, no `aiSuggested`. -/
def rawFallback (reply model : String) (input : TicketInput) : GeneratedTicket :=
  { content := trimS reply
  , title := .str (stringOr input.title (extractTitleS reply)).data
  , metadata :=
      { type := stringOr input.type "Task"
      , priority := stringOr input.priority "Medium"
      , labels := input.labels
      , model := model
      , aiSuggested := none } }

/-- `TicketService.parseStructuredResponse`: try block plus catch-all. -/
def parseStructuredResponse (reply model : String) (input : TicketInput) :
    GeneratedTicket :=
  match tryParseStructured reply model input with
  | .ok t => t
  | .error _ => rawFallback reply model input

/-- `needsAutoDetect` from `generateTicket`:
`!input.type || !input.priority || input.labels.length === 0`. -/
def needsAutoDetect (input : TicketInput) : Bool :=
  !(strTruthy input.type) || !(strTruthy input.priority) || decide (input.labels = [])

/-- `TicketService.generateTicket`, given the reply `result.content` and
`result.model` of the provider call. -/
def generateTicketModel (input : TicketInput) (reply model : String) : GeneratedTicket :=
  if needsAutoDetect input then
    let t := parseStructuredResponse reply model input
    { t with content := stripLeadingTitleS t.content }
  else
    { content := stripLeadingTitleS (trimS reply)
    , title := .str (stringOr input.title (extractTitleS reply)).data
    , metadata :=
        { type := input.type.getD ""
        , priority := input.priority.getD ""
        , labels := input.labels
        , model := model
        , aiSuggested := none } }

/-! ## `generateTitle` -/

/-- Remove one leading double or single quote. -/
def dropLeadQuote (cs : List Char) : List Char :=
  match cs with
  | c :: r => if c = '"' || c = sq then r else cs
  | [] => []

/-- Remove one trailing double or single quote. -/
def dropTrailQuote (cs : List Char) : List Char :=
  match cs.reverse with
  | c :: r => if c = '"' || c = sq then r.reverse else cs
  | [] => cs

/-- Remove one trailing period. -/
def dropTrailDot (cs : List Char) : List Char :=
  match cs.reverse with
  | c :: r => if c = '.' then r.reverse else cs
  | [] => cs

/-- The title clean-up: `.trim().replace(/^["']|["']$/g, '')
.replace(/\.$/, '')`. -/
def cleanTitle (reply : String) : String :=
  ⟨dropTrailDot (dropTrailQuote (dropLeadQuote (trimL reply.data)))⟩

/-- `TicketService.generateTitle`, instrumented with the number of
`provider.generate` invocations it performs: an empty / undefined /
whitespace-only description short-circuits to `''` with no call,
otherwise the provider is called exactly once and its reply cleaned. -/
def generateTitleCalls (description : Option String) (reply : String) : String × Nat :=
  if !(strTruthy (description.map trimS)) then ("", 0)
  else (cleanTitle reply, 1)

/-! ## Backend adapters: error normalization in `complete`

The transport is abstracted as the outcome of the single `fetch` the
adapter performs: the deadline fired (`AbortController` abort), the fetch
rejected with some error message, or a response arrived with a status and
a body. `fetchWithTimeout` re-labels the abort as
`Error('Request timeout after {t}ms')` and re-throws everything else; the
adapters classify the message text exactly as the source does
(`error.message.includes(...)`). The body carries the fields each adapter
reads (the best-effort error message for Claude/OpenAI, the `text()`
result for Ollama — `none` models a rejected `text()` —, and the content
and model of a success). -/

structure UpstreamBody where
  errorMessage : Option String
  textBody : Option String
  content : String
  model : String
deriving DecidableEq

/-- Outcome of the underlying `fetch`. -/
inductive TransportOutcome where
  | aborted
  | failed (msg : String)
  | responded (status : Nat) (body : UpstreamBody)
deriving DecidableEq

/-- The normalized `LLMApiError` of `fetchWithTimeout.ts`. -/
structure LLMApiError where
  provider : String
  statusCode : Nat
  message : String
deriving DecidableEq

/-- A completion result (the fields the interpreter consumes). -/
structure LLMResult where
  content : String
  model : String
deriving DecidableEq

/-- `fetchWithTimeout`: turn the abort into a message containing
`timeout`, re-throw other rejections unchanged, pass responses through. -/
def fetchWithTimeoutModel (timeoutMs : Nat) :
    TransportOutcome → Except String (Nat × UpstreamBody)
  | .aborted => .error ("Request timeout after " ++ toString timeoutMs ++ "ms")
  | .failed m => .error m
  | .responded s b => .ok (s, b)

/-- `response.ok`. -/
def responseOk (status : Nat) : Bool := 200 ≤ status && status ≤ 299

/-- `OllamaProvider.complete` (error handling): timeout messages become
408; `ECONNREFUSED` becomes 503 with the local hint; other transport
failures become 0; non-2xx responses carry the upstream status and the
body text (or `Unknown error` when `text()` failed). -/
def ollamaComplete (timeoutMs : Nat) (outcome : TransportOutcome) :
    Except LLMApiError LLMResult :=
  match fetchWithTimeoutModel timeoutMs outcome with
  | .error m =>
    if containsSub (lc "timeout") (lc m) then
      .error ⟨"ollama", 408, "Request timed out"⟩
    else if containsSub (lc "ECONNREFUSED") (lc m) then
      .error ⟨"ollama", 503, "Ollama is not running. Start it with: ollama serve"⟩
    else .error ⟨"ollama", 0, "Network error"⟩
  | .ok (status, b) =>
    if !(responseOk status) then
      .error ⟨"ollama", status, b.textBody.getD "Unknown error"⟩
    else .ok ⟨b.content, b.model⟩

/-- `ClaudeProvider.complete` (error handling): timeout messages become
408, every other transport failure 0; non-2xx responses carry the
upstream status and the body's `error.message` (or `HTTP {status}`).
`OpenAIProvider.complete` normalizes identically up to the name. -/
def claudeComplete (timeoutMs : Nat) (outcome : TransportOutcome) :
    Except LLMApiError LLMResult :=
  match fetchWithTimeoutModel timeoutMs outcome with
  | .error m =>
    if containsSub (lc "timeout") (lc m) then
      .error ⟨"claude", 408, "Request timed out"⟩
    else .error ⟨"claude", 0, "Network error"⟩
  | .ok (status, b) =>
    if !(responseOk status) then
      .error ⟨"claude", status, b.errorMessage.getD ("HTTP " ++ toString status)⟩
    else .ok ⟨b.content, b.model⟩

/-! ## `LLMFactory.createProvider` -/

/-- Provider configuration (`LLMProviderConfig`). -/
structure LLMProviderConfig where
  apiKey : String
  model : Option String
  baseUrl : Option String
  timeout : Option Nat
deriving DecidableEq

/-- A constructed adapter instance: the state a provider constructor
stores. Construction is pure — no network call happens before
`complete` / `healthCheck`. -/
structure ProviderInstance where
  name : String
  model : String
  baseUrl : String
  timeoutMs : Nat
deriving DecidableEq

/-- `config.timeout || default` (`0` is falsy). -/
def natOr (a : Option Nat) (b : Nat) : Nat :=
  match a with
  | some n => if n = 0 then b else n
  | none => b

/-- `ClaudeProvider`'s constructor: requires an API key. -/
def claudeCtor (c : LLMProviderConfig) : Except String ProviderInstance :=
  if c.apiKey = "" then .error "Claude API key is required"
  else .ok ⟨"claude", stringOr c.model "claude-sonnet-4-20250514",
            stringOr c.baseUrl "https://api.anthropic.com", natOr c.timeout 60000⟩

/-- `OpenAIProvider`'s constructor: requires an API key. -/
def openaiCtor (c : LLMProviderConfig) : Except String ProviderInstance :=
  if c.apiKey = "" then .error "OpenAI API key is required"
  else .ok ⟨"openai", stringOr c.model "gpt-4o",
            stringOr c.baseUrl "https://api.openai.com", natOr c.timeout 60000⟩

/-- `OllamaProvider`'s constructor: no credential needed. -/
def ollamaCtor (c : LLMProviderConfig) : ProviderInstance :=
  ⟨"ollama", stringOr c.model "llama3",
   stringOr c.baseUrl "http://localhost:11434", natOr c.timeout 120000⟩

/-- The values of `LLM_PROVIDERS` — the recognized backend names. -/
def LLM_PROVIDERS : List String := ["claude", "openai", "gemini", "ollama"]

/-- `LLMFactory.createProvider`: dispatch on the name; `gemini` is
recognized but unimplemented, anything else is unknown. -/
def createProvider (name : String) (c : LLMProviderConfig) :
    Except String ProviderInstance :=
  if name = "claude" then claudeCtor c
  else if name = "openai" then openaiCtor c
  else if name = "gemini" then .error "Gemini provider not yet implemented"
  else if name = "ollama" then .ok (ollamaCtor c)
  else .error ("Unknown LLM provider: " ++ name)

/-! ## Helper definitions and lemmas for the verification -/

/-- Is an `Except` a success? -/
def isOkE : Except ε α → Bool
  | .ok _ => true
  | .error _ => false

/-- A success is never an error. -/
theorem isOkE_ok {x : Except ε α} (a : α) (h : x = .ok a) : isOkE x = true := by
  rw [h]; rfl

/-- A leading run survives appending. -/
theorem leadsWith_append (p cs ds : List Char) (h : leadsWith p cs = true) :
    leadsWith p (cs ++ ds) = true := by
  induction p generalizing cs with
  | nil => rfl
  | cons a p ih =>
    cases cs with
    | nil => simp [leadsWith] at h
    | cons c cs =>
      simp only [leadsWith, Bool.and_eq_true] at h ⊢
      exact ⟨h.1, ih cs h.2⟩

/-- The empty pattern occurs everywhere. -/
theorem containsSub_nil (cs : List Char) : containsSub [] cs = true := by
  cases cs <;> simp [containsSub, leadsWith]

/-- An occurrence in a prefix is an occurrence in the whole. -/
theorem containsSub_append_left (pat cs ds : List Char)
    (h : containsSub pat cs = true) : containsSub pat (cs ++ ds) = true := by
  induction cs with
  | nil =>
    cases pat with
    | nil => exact containsSub_nil ds
    | cons a p => simp [containsSub, leadsWith] at h
  | cons c cs ih =>
    simp only [containsSub, Bool.or_eq_true] at h
    rcases h with h | h
    · cases ds with
      | nil => simpa [containsSub] using Or.inl h
      | cons d ds =>
        have := leadsWith_append pat (c :: cs) (d :: ds) h
        simp only [List.cons_append, containsSub, Bool.or_eq_true] at this ⊢
        simpa using Or.inl (by simpa using this)
    · simp only [List.cons_append, containsSub, Bool.or_eq_true]
      exact Or.inr (ih h)

/-- The timeout message produced by `fetchWithTimeout` contains
`timeout`. -/
theorem timeout_msg_contains (t : Nat) :
    containsSub (lc "timeout") (lc ("Request timeout after " ++ toString t ++ "ms")) = true := by
  have h1 : containsSub (lc "timeout") (lc "Request timeout after ") = true := by decide
  have h2 := containsSub_append_left (lc "timeout") (lc "Request timeout after ")
    (lc (toString t ++ "ms")) h1
  simpa [lc, String.data_append, List.append_assoc] using h2

/-! ## C10 -/

/-- C10: for every description that is `undefined`, empty or
whitespace-only, `generateTitle` returns the empty string at once and the
provider's `generate` is never invoked (zero calls); for every other
description the provider is invoked exactly once. -/
theorem generateTitle_short_circuit (description : Option String) (reply : String) :
    ((description = none ∨ ∃ s, description = some s ∧ trimS s = "") →
      generateTitleCalls description reply = ("", 0)) ∧
    (∀ s, description = some s → trimS s ≠ "" →
      (generateTitleCalls description reply).2 = 1) := by
  constructor
  · rintro (rfl | ⟨s, rfl, h⟩)
    · rfl
    · simp [generateTitleCalls, strTruthy, h]
  · rintro s rfl h
    simp [generateTitleCalls, strTruthy, h]

/-- Witness for C10 at concrete inputs: a whitespace-only description
short-circuits. -/
theorem generateTitle_short_circuit_witness :
    generateTitleCalls (some "  \t ") "Some reply" = ("", 0) :=
  (generateTitle_short_circuit (some "  \t ") "Some reply").1
    (Or.inr ⟨"  \t ", rfl, by decide⟩)

/-! ## C9 -/

/-- C9 counterexample: `gemini` is a recognized backend name
(a member of `LLM_PROVIDERS`) and the credential is present, so the claim
predicts that resolution succeeds; `createProvider` still fails
(`Gemini provider not yet implemented`). -/
theorem createProvider_gemini_counterexample :
    "gemini" ∈ LLM_PROVIDERS ∧
    (⟨"some-key", none, none, none⟩ : LLMProviderConfig).apiKey ≠ "" ∧
    isOkE (createProvider "gemini" ⟨"some-key", none, none, none⟩) = false := by
  refine ⟨by decide, by decide, rfl⟩

/-- C9 (amended): construction through the factory fails exactly when the
name is unrecognized, the name is `gemini` (recognized but
unimplemented), or the name is `claude`/`openai` with an absent API key;
for `claude`/`openai` with a key and for `ollama` (which needs no
credential) construction succeeds. Construction is pure (the model
performs no transport action), so the failure surfaces before any
network call. -/
theorem createProvider_characterization (name : String) (c : LLMProviderConfig) :
    isOkE (createProvider name c) = true ↔
      ((name = "claude" ∧ c.apiKey ≠ "") ∨ (name = "openai" ∧ c.apiKey ≠ "") ∨
        name = "ollama") := by
  unfold createProvider claudeCtor openaiCtor
  by_cases h1 : name = "claude"
  · by_cases hk : c.apiKey = "" <;> simp [h1, hk, isOkE]
  · by_cases h2 : name = "openai"
    · by_cases hk : c.apiKey = "" <;> simp [h1, h2, hk, isOkE]
    · by_cases h3 : name = "gemini"
      · simp [h1, h2, h3, isOkE]
      · by_cases h4 : name = "ollama" <;> simp [h1, h2, h3, h4, isOkE]

/-! ## C8 -/

/-- C8 counterexample: the local backend not running (`ECONNREFUSED`) is
a connection-level transport failure, for which the claim predicts
statusCode 0; the Ollama adapter raises 503 (with the adapter-specific
hint). -/
theorem ollama_refused_counterexample :
    ollamaComplete 120000 (.failed "connect ECONNREFUSED 127.0.0.1:11434") =
      .error ⟨"ollama", 503, "Ollama is not running. Start it with: ollama serve"⟩ ∧
    (503 : Nat) ≠ 0 :=
  ⟨rfl, by decide⟩

/-- C8 (amended): every failure of an adapter's `complete` is a
normalized `LLMApiError` carrying the backend name, a status code and a
message: 408 when the deadline expired (the abort message contains
`timeout`); for other transport failures, statusCode 0 (`Network error`),
except that the local (Ollama) adapter maps a connection-refused failure
to 503 with its adapter-specific hint; every non-2xx response carries the
upstream HTTP status with the best-effort body message; and a 2xx
response is returned as a result, so no raw transport exception escapes
the adapter. -/
theorem adapter_error_normalization (t : Nat) :
    (ollamaComplete t .aborted = .error ⟨"ollama", 408, "Request timed out"⟩) ∧
    (claudeComplete t .aborted = .error ⟨"claude", 408, "Request timed out"⟩) ∧
    (∀ m, containsSub (lc "timeout") (lc m) = false →
      containsSub (lc "ECONNREFUSED") (lc m) = true →
      ollamaComplete t (.failed m) =
        .error ⟨"ollama", 503, "Ollama is not running. Start it with: ollama serve"⟩) ∧
    (∀ m, containsSub (lc "timeout") (lc m) = false →
      containsSub (lc "ECONNREFUSED") (lc m) = false →
      ollamaComplete t (.failed m) = .error ⟨"ollama", 0, "Network error"⟩) ∧
    (∀ m, containsSub (lc "timeout") (lc m) = false →
      claudeComplete t (.failed m) = .error ⟨"claude", 0, "Network error"⟩) ∧
    (∀ s b, responseOk s = false →
      ollamaComplete t (.responded s b) =
        .error ⟨"ollama", s, b.textBody.getD "Unknown error"⟩) ∧
    (∀ s b, responseOk s = false →
      claudeComplete t (.responded s b) =
        .error ⟨"claude", s, b.errorMessage.getD ("HTTP " ++ toString s)⟩) ∧
    (∀ s b, responseOk s = true →
      ollamaComplete t (.responded s b) = .ok ⟨b.content, b.model⟩ ∧
      claudeComplete t (.responded s b) = .ok ⟨b.content, b.model⟩) := by
  refine ⟨?_, ?_, ?_, ?_, ?_, ?_, ?_, ?_⟩
  · simp [ollamaComplete, fetchWithTimeoutModel, timeout_msg_contains t]
  · simp [claudeComplete, fetchWithTimeoutModel, timeout_msg_contains t]
  · intro m h1 h2; simp [ollamaComplete, fetchWithTimeoutModel, h1, h2]
  · intro m h1 h2; simp [ollamaComplete, fetchWithTimeoutModel, h1, h2]
  · intro m h1; simp [claudeComplete, fetchWithTimeoutModel, h1]
  · intro s b h; simp [ollamaComplete, fetchWithTimeoutModel, h]
  · intro s b h; simp [claudeComplete, fetchWithTimeoutModel, h]
  · intro s b h
    constructor <;> simp [ollamaComplete, claudeComplete, fetchWithTimeoutModel, h]

/-- Witness for C8 (amended) at concrete inputs: a plain network failure
normalizes to statusCode 0. -/
theorem adapter_error_normalization_witness :
    ollamaComplete 120000 (.failed "fetch failed") =
      .error ⟨"ollama", 0, "Network error"⟩ :=
  (adapter_error_normalization 120000).2.2.2.1 "fetch failed" (by decide) (by decide)

/-! ## List-scanning helper lemmas -/

/-- `takeWhile` and `dropWhile` stop at an element that fails the
predicate, across an append. -/
theorem takeWhile_append_stop (p : Char → Bool) (xs : List Char) (y : Char)
    (ys : List Char) (h : p y = false) :
    (xs ++ y :: ys).takeWhile p = xs.takeWhile p ∧
    (xs ++ y :: ys).dropWhile p = xs.dropWhile p ++ y :: ys := by
  induction xs with
  | nil => simp [List.takeWhile, List.dropWhile, h]
  | cons x xs ih =>
    by_cases hx : p x <;>
      simp [List.takeWhile_cons, List.dropWhile_cons, hx, ih.1, ih.2]

/-- A pattern that fails to lead `inner` still fails after appending a
character it does not contain. -/
theorem leadsWith_notin_ext (pat inner : List Char) (c : Char) (rest : List Char)
    (hc : c ∉ pat) (h : leadsWith pat inner = false) :
    leadsWith pat (inner ++ c :: rest) = false := by
  induction pat generalizing inner with
  | nil => simp [leadsWith] at h
  | cons p ps ih =>
    cases inner with
    | nil =>
      simp only [List.nil_append, leadsWith, Bool.and_eq_false_iff]
      left
      simp only [decide_eq_false_iff_not]
      intro hpc
      exact hc (by simp [hpc])
    | cons i is =>
      simp only [leadsWith, Bool.and_eq_false_iff] at h
      rcases h with h | h
      · simp [leadsWith, h]
      · simp only [List.cons_append, leadsWith, Bool.and_eq_false_iff]
        exact Or.inr (ih is (by intro hm; exact hc (List.mem_cons_of_mem _ hm)) h)

/-! ## C7: extraction selection -/

/-- C7 counterexample: with two brace spans and no fence, the extraction
takes the span from the first `{` to the last `}` (the regex
`/(\{[\s\S]*\})/` is greedy), not the first balanced span
`\x7b"a":1\x7d` the claim describes. -/
theorem extraction_counterexample :
    extractCandidate (lc "pre \x7b\"a\":1\x7d mid \x7b\"b\":2\x7d post") =
      some (lc "\x7b\"a\":1\x7d mid \x7b\"b\":2\x7d") ∧
    lc "\x7b\"a\":1\x7d mid \x7b\"b\":2\x7d" ≠ lc "\x7b\"a\":1\x7d" :=
  ⟨rfl, by decide⟩

/-- A fence match cannot start at a non-backtick character. -/
theorem fenceAt_head_ne (c : Char) (rest : List Char) (h : c ≠ bq) :
    fenceAt (c :: rest) = none := by
  cases rest with
  | nil => rfl
  | cons c2 r2 =>
    cases r2 with
    | nil => rfl
    | cons c3 r3 => simp [fenceAt, h]

/-- Unfolding the fence search when the head position fails. -/
theorem findFence_cons_none {c : Char} {rest : List Char}
    (h : fenceAt (c :: rest) = none) : findFence (c :: rest) = findFence rest := by
  show (match fenceAt (c :: rest) with
        | some r => some r
        | none => findFence rest) = findFence rest
  rw [h]

/-- Unfolding the fence search when the head position matches. -/
theorem findFence_cons_some {c : Char} {rest : List Char} {r}
    (h : fenceAt (c :: rest) = some r) : findFence (c :: rest) = some r := by
  show (match fenceAt (c :: rest) with
        | some r => some r
        | none => findFence rest) = some r
  rw [h]

/-- The fence search skips a backtick-free prefix. -/
theorem findFence_skip (pre cs : List Char) (h : bq ∉ pre) :
    findFence (pre ++ cs) = findFence cs := by
  induction pre with
  | nil => rfl
  | cons p pre ih =>
    have hp : p ≠ bq := fun he => h (he ▸ List.mem_cons_self p pre)
    have hrest : bq ∉ pre := fun hm => h (List.mem_cons_of_mem _ hm)
    rw [List.cons_append, findFence_cons_none (fenceAt_head_ne p _ hp)]
    exact ih hrest

/-- On a backtick-free string the fence search fails. -/
theorem findFence_no_bq (cs : List Char) (h : bq ∉ cs) : findFence cs = none := by
  have h0 := findFence_skip cs [] h
  rw [List.append_nil] at h0
  exact h0

/-- Unfolding the fence split at a non-backtick head. -/
theorem splitAtFence_cons_ne {c : Char} (rest : List Char) (h : c ≠ bq) :
    splitAtFence (c :: rest) =
      (splitAtFence rest).map fun p => (c :: p.1, p.2) := by
  cases rest with
  | nil => simp [splitAtFence, h]
  | cons c2 r2 =>
    cases r2 with
    | nil => simp [splitAtFence, h]
    | cons c3 r3 => simp [splitAtFence, h]

/-- The first closing fence after a backtick-free body prefix. -/
theorem splitAtFence_boundary (pre post : List Char) (h : bq ∉ pre) :
    splitAtFence (pre ++ bq :: bq :: bq :: post) = some (pre, post) := by
  induction pre with
  | nil => simp [splitAtFence]
  | cons p pre ih =>
    have hp : p ≠ bq := fun he => h (he ▸ List.mem_cons_self p pre)
    have hrest : bq ∉ pre := fun hm => h (List.mem_cons_of_mem _ hm)
    rw [List.cons_append, splitAtFence_cons_ne _ hp, ih hrest, Option.map_some']

/-- Dropping the length of the whitespace run is `dropWhile`, across an
append. -/
theorem drop_takeWhile_length_append (p : Char → Bool) (l F : List Char) :
    (l ++ F).drop (l.takeWhile p).length = l.dropWhile p ++ F := by
  induction l with
  | nil => simp
  | cons x xs ih =>
    by_cases hx : p x
    · simp [List.takeWhile_cons_of_pos hx, List.dropWhile_cons_of_pos hx, ih]
    · simp [List.takeWhile_cons_of_neg hx, List.dropWhile_cons_of_neg hx]

/-- Members of `dropWhile` are members of the list. -/
theorem mem_of_mem_dropWhile (p : Char → Bool) (l : List Char) (a : Char)
    (h : a ∈ l.dropWhile p) : a ∈ l := by
  induction l with
  | nil => simp at h
  | cons x xs ih =>
    by_cases hx : p x
    · rw [List.dropWhile_cons_of_pos hx] at h
      exact List.mem_cons_of_mem _ (ih h)
    · rwa [List.dropWhile_cons_of_neg hx] at h

/-- The fenced-block regex at its match position: the capture is the
inner text trimmed of surrounding whitespace. -/
theorem fenceAt_boundary (inner post : List Char) (hbq : bq ∉ inner)
    (htag : leadsWith (lc "json") (inner ++ bq :: bq :: bq :: post) = false) :
    (fenceAt (bq :: bq :: bq :: (inner ++ bq :: bq :: bq :: post))).map Prod.fst =
      some (trimL inner) := by
  have hws : isJsWs bq = false := by decide
  have hTW : (inner ++ bq :: bq :: bq :: post).takeWhile isJsWs =
      inner.takeWhile isJsWs :=
    (takeWhile_append_stop isJsWs inner bq (bq :: bq :: post) hws).1
  have hdrop := drop_takeWhile_length_append isJsWs inner (bq :: bq :: bq :: post)
  have hdw : bq ∉ inner.dropWhile isJsWs := fun hm =>
    hbq (mem_of_mem_dropWhile isJsWs inner bq hm)
  simp only [fenceAt]
  rw [htag]
  simp only [Bool.false_eq_true, if_false, hTW, hdrop,
    splitAtFence_boundary _ _ hdw]
  simp [trimL]

/-- The fence search finds the first fence and returns its trimmed
capture. -/
theorem findFence_boundary (pre inner post : List Char) (hpre : bq ∉ pre)
    (hbq : bq ∉ inner)
    (htag : leadsWith (lc "json") (inner ++ bq :: bq :: bq :: post) = false) :
    (findFence (pre ++ bq :: bq :: bq :: (inner ++ bq :: bq :: bq :: post))).map
        Prod.fst = some (trimL inner) := by
  have hfa := fenceAt_boundary inner post hbq htag
  rw [findFence_skip pre _ hpre]
  cases hsome : fenceAt (bq :: bq :: bq :: (inner ++ bq :: bq :: bq :: post)) with
  | none => rw [hsome] at hfa; simp at hfa
  | some r =>
    rw [findFence_cons_some hsome]
    rw [hsome] at hfa
    exact hfa

/-- Membership gives `List.contains`. -/
theorem contains_of_mem (l : List Char) (a : Char) (h : a ∈ l) :
    l.contains a = true := by
  induction l with
  | nil => cases h
  | cons c cs ih =>
    rcases List.mem_cons.mp h with rfl | hm
    · simp [List.contains_cons]
    · rw [List.contains_cons, ih hm, Bool.or_true]

/-- Unfolding the brace scan at a non-`{` head. -/
theorem braceSpan_cons_ne {x : Char} (rest : List Char) (h : x ≠ lb) :
    braceSpan (x :: rest) = braceSpan rest := by
  conv_lhs => rw [braceSpan]
  simp [h]

/-- The brace scan skips a brace-free prefix. -/
theorem braceSpan_skip (a cs : List Char) (h : lb ∉ a) :
    braceSpan (a ++ cs) = braceSpan cs := by
  induction a with
  | nil => rfl
  | cons x a ih =>
    have hx : x ≠ lb := fun he => h (he ▸ List.mem_cons_self x a)
    have hrest : lb ∉ a := fun hm => h (List.mem_cons_of_mem _ hm)
    rw [List.cons_append, braceSpan_cons_ne _ hx]
    exact ih hrest

/-- On a `{`-free string the brace scan fails. -/
theorem braceSpan_none (cs : List Char) (h : lb ∉ cs) : braceSpan cs = none := by
  have h0 := braceSpan_skip cs [] h
  rw [List.append_nil] at h0
  exact h0

/-- Everything up to the last right brace. -/
theorem takeToLastRB_spec (mid b : List Char) (hb : rb ∉ b) :
    takeToLastRB (mid ++ rb :: b) = mid ++ [rb] := by
  unfold takeToLastRB
  have hrev : (mid ++ rb :: b).reverse = b.reverse ++ rb :: mid.reverse := by simp
  rw [hrev, (takeWhile_append_stop (fun c => c ≠ rb) b.reverse rb mid.reverse
    (by simp)).2]
  have hdropb : b.reverse.dropWhile (fun c => c ≠ rb) = [] := by
    rw [List.dropWhile_eq_nil_iff]
    intro x hx
    have hxb : x ∈ b := List.mem_reverse.mp hx
    have hxne : x ≠ rb := fun he => hb (he ▸ hxb)
    simp [hxne]
  rw [hdropb]
  simp

/-- C7 (amended): extraction prefers the first fenced block, whose
capture is the fence contents trimmed of surrounding whitespace; with no
fence, it takes the span from the first `{` (having a later `}`) to the
last `}` of the whole text — the greedy regex span, not the first
balanced one; with neither, extraction fails and the interpreter falls
through to the raw fallback. -/
theorem extraction_selection_amended :
    (∀ pre inner post : List Char,
      bq ∉ pre → bq ∉ inner →
      leadsWith (lc "json") (inner ++ bq :: bq :: bq :: post) = false →
      trimL inner ≠ [] →
      extractCandidate (pre ++ bq :: bq :: bq :: (inner ++ bq :: bq :: bq :: post)) =
        some (trimL inner)) ∧
    (∀ a mid b : List Char,
      bq ∉ a ++ lb :: (mid ++ rb :: b) → lb ∉ a → rb ∉ b →
      extractCandidate (a ++ lb :: (mid ++ rb :: b)) = some (lb :: (mid ++ [rb]))) ∧
    (∀ cs : List Char, bq ∉ cs → lb ∉ cs → extractCandidate cs = none) := by
  refine ⟨?_, ?_, ?_⟩
  · intro pre inner post hpre hbq htag hcap
    have hmap := findFence_boundary pre inner post hpre hbq htag
    show (match findFence (pre ++ bq :: bq :: bq :: (inner ++ bq :: bq :: bq :: post)) with
          | some (cap, full) => some (if cap = [] then full else cap)
          | none =>
            braceSpan (pre ++ bq :: bq :: bq :: (inner ++ bq :: bq :: bq :: post))) =
        some (trimL inner)
    cases hfs : findFence (pre ++ bq :: bq :: bq :: (inner ++ bq :: bq :: bq :: post)) with
    | none => rw [hfs] at hmap; simp at hmap
    | some r =>
      rw [hfs] at hmap
      obtain ⟨cap, full⟩ := r
      simp only [Option.map_some', Option.some_inj] at hmap
      simp only [hmap, if_neg hcap]
  · intro a mid b hbq ha hb
    have hff : findFence (a ++ lb :: (mid ++ rb :: b)) = none := by
      apply findFence_no_bq
      simpa using hbq
    have hbs : braceSpan (a ++ lb :: (mid ++ rb :: b)) = some (lb :: (mid ++ [rb])) := by
      rw [braceSpan_skip a (lb :: (mid ++ rb :: b)) ha]
      have hmem : rb ∈ mid ++ rb :: b := by simp
      conv_lhs => rw [braceSpan]
      rw [if_pos (by simp [contains_of_mem _ _ hmem])]
      rw [takeToLastRB_spec mid b hb]
    show (match findFence (a ++ lb :: (mid ++ rb :: b)) with
          | some (cap, full) => some (if cap = [] then full else cap)
          | none => braceSpan (a ++ lb :: (mid ++ rb :: b))) =
        some (lb :: (mid ++ [rb]))
    rw [hff]
    exact hbs
  · intro cs hbq hlb
    show (match findFence cs with
          | some (cap, full) => some (if cap = [] then full else cap)
          | none => braceSpan cs) = none
    rw [findFence_no_bq cs hbq]
    exact braceSpan_none cs hlb

/-- Witness for C7 (amended) at concrete inputs: the greedy brace span. -/
theorem extraction_selection_amended_witness :
    extractCandidate (lc "x " ++ lb :: (lc "\"a\":1, y " ++ rb :: lc " tail")) =
      some (lb :: (lc "\"a\":1, y " ++ [rb])) :=
  extraction_selection_amended.2.1 (lc "x ") (lc "\"a\":1, y ") (lc " tail")
    (by decide) (by decide) (by decide)

/-! ## C6: leading-heading stripping -/

/-- Dropping a full prefix of an append. -/
theorem drop_length_append (l₁ l₂ : List Char) : (l₁ ++ l₂).drop l₁.length = l₂ := by
  induction l₁ with
  | nil => rfl
  | cons x xs ih => simp [ih]

/-- Unfolding `stripLeadingTitleL` on a `##` head. -/
theorem stripLeadingTitleL_hh (rest : List Char) :
    stripLeadingTitleL ('#' :: '#' :: rest) =
      match h2StripRest rest with
      | some remainder => trimL remainder
      | none => trimL ('#' :: '#' :: rest) := by
  show (if ('#' : Char) = '#' ∧ ('#' : Char) = '#' then
          match h2StripRest rest with
          | some remainder => trimL remainder
          | none => trimL ('#' :: '#' :: rest)
        else trimL ('#' :: '#' :: rest)) = _
  rw [if_pos ⟨rfl, rfl⟩]

/-- C6 counterexample: the leading heading `## Other` differs from the
resolved title `T`, yet post-processing removes it: the claim's
"preserved when it differs from the title" fails. -/
theorem strip_heading_counterexample :
    (generateTicketModel ⟨"d", none, none, none, []⟩
      "\x7b\"title\":\"T\",\"content\":\"## Other\\nBody\",\"type\":\"Task\",\"priority\":\"Medium\",\"labels\":[\"a\"]\x7d"
      "m").title = Json.str (lc "T") ∧
    (generateTicketModel ⟨"d", none, none, none, []⟩
      "\x7b\"title\":\"T\",\"content\":\"## Other\\nBody\",\"type\":\"Task\",\"priority\":\"Medium\",\"labels\":[\"a\"]\x7d"
      "m").content = "Body" ∧
    ("Body" : String) ≠ "## Other\nBody" :=
  ⟨rfl, rfl, by decide⟩

/-- C6 (amended): post-processing removes a leading `## ` heading line
exactly once whenever one is present — regardless of whether it equals
the resolved ticket title (`stripLeadingTitle` never consults the
title) — and then trims; content that does not start with `##` is only
trimmed. -/
theorem strip_leading_heading_amended :
    (∀ (c : Char) (h rest : List Char),
      isJsWs c = false → (∀ x ∈ h, x ≠ '\n') →
      stripLeadingTitleL ('#' :: '#' :: ' ' :: c :: (h ++ '\n' :: rest)) =
        trimL (dropUpTo2Nl ('\n' :: rest))) ∧
    (∀ cs : List Char, leadsWith (lc "##") cs = false →
      stripLeadingTitleL cs = trimL cs) := by
  constructor
  · intro c h rest hc hnl
    have hcn : c ≠ '\n' := by
      intro he
      rw [he] at hc
      exact absurd hc (by decide)
    have hws1 : ((' ' : Char) :: c :: (h ++ '\n' :: rest)).takeWhile isJsWs = [' '] := by
      rw [List.takeWhile_cons_of_pos (by decide),
        List.takeWhile_cons_of_neg (by simp [hc])]
    have hbody : (c :: (h ++ '\n' :: rest)).takeWhile (fun x => x ≠ '\n') = c :: h := by
      rw [List.takeWhile_cons_of_pos (by simp [hcn]),
        (takeWhile_append_stop (fun x => x ≠ '\n') h '\n' rest (by simp)).1]
      congr 1
      rw [List.takeWhile_eq_self_iff]
      intro x hx
      simp [hnl x hx]
    have hstrip : h2StripRest (' ' :: c :: (h ++ '\n' :: rest)) =
        some (dropUpTo2Nl ('\n' :: rest)) := by
      simp only [h2StripRest, hws1, List.length_cons, List.length_nil, Nat.zero_add,
        List.drop_succ_cons, List.drop_zero, hbody, List.cons_ne_nil, if_neg,
        if_false, ne_eq, not_false_eq_true, if_true, reduceCtorEq]
      rw [drop_length_append h ('\n' :: rest)]
    rw [stripLeadingTitleL_hh, hstrip]
  · intro cs hlw
    rcases cs with _ | ⟨c1, _ | ⟨c2, rest⟩⟩
    · rfl
    · rfl
    · have hne : ¬(c1 = '#' ∧ c2 = '#') := by
        rintro ⟨rfl, rfl⟩
        simp [leadsWith, lc] at hlw
      show (if c1 = '#' ∧ c2 = '#' then
              match h2StripRest rest with
              | some remainder => trimL remainder
              | none => trimL (c1 :: c2 :: rest)
            else trimL (c1 :: c2 :: rest)) = _
      rw [if_neg hne]

/-- Witness for C6 (amended) at concrete inputs. -/
theorem strip_leading_heading_amended_witness :
    stripLeadingTitleL (lc "## Another Title\n\nThe body.") = lc "The body." := by
  have h := strip_leading_heading_amended.1 'A' (lc "nother Title")
    (lc "\nThe body.") (by decide) (by decide)
  simpa [lc] using h

/-! ## Unfolding lemmas for the interpreter pipeline -/

/-- `parseStructuredResponse` on a failing try block is the fallback. -/
theorem psr_of_error {reply model : String} {input : TicketInput} {e : String}
    (h : tryParseStructured reply model input = .error e) :
    parseStructuredResponse reply model input = rawFallback reply model input := by
  unfold parseStructuredResponse
  rw [h]

/-- `parseStructuredResponse` on a successful try block is its value. -/
theorem psr_of_ok {reply model : String} {input : TicketInput} {t : GeneratedTicket}
    (h : tryParseStructured reply model input = .ok t) :
    parseStructuredResponse reply model input = t := by
  unfold parseStructuredResponse
  rw [h]

/-- Unfolding `extractParse` on a found candidate. -/
theorem extractParse_some {reply : String} {cand : List Char}
    (hc : extractCandidate reply.data = some cand) :
    extractParse reply = safeParseJSON cand := by
  unfold extractParse
  rw [hc]

/-- Extraction finding no candidate throws `No JSON found in response`. -/
theorem tryPS_extract_none {reply model : String} {input : TicketInput}
    (h : extractCandidate reply.data = none) :
    tryParseStructured reply model input = .error "No JSON found in response" := by
  unfold tryParseStructured extractParse
  rw [h]

/-- Both parse attempts failing propagates the parse error to the catch. -/
theorem tryPS_parse_error {reply model : String} {input : TicketInput}
    {cand : List Char} {e : String}
    (hc : extractCandidate reply.data = some cand)
    (he : safeParseJSON cand = .error e) :
    tryParseStructured reply model input = .error e := by
  unfold tryParseStructured
  rw [extractParse_some hc, he]

/-- Unfolding the try block once extraction and parsing succeeded. -/
theorem tryPS_of_extractParse_ok {reply model : String} {input : TicketInput}
    {parsed : Json} (hp : extractParse reply = .ok parsed) :
    tryParseStructured reply model input =
      (if isNullJ parsed then .error "TypeError: Cannot read properties of null"
       else
        match contentOf parsed reply with
        | .error e => .error e
        | .ok contentStr =>
          .ok { content := trimS contentStr
              , title := titleOf parsed input contentStr
              , metadata := mergedMetadata parsed input model }) := by
  unfold tryParseStructured
  rw [hp]

/-- Unfolding the try block when extraction or parsing failed. -/
theorem tryPS_of_extractParse_err {reply model : String} {input : TicketInput}
    {e : String} (hp : extractParse reply = .error e) :
    tryParseStructured reply model input = .error e := by
  unfold tryParseStructured
  rw [hp]

/-- The shape of every successful try block. -/
theorem tryPS_ok_shape {reply model : String} {input : TicketInput}
    {t : GeneratedTicket} (h : tryParseStructured reply model input = .ok t) :
    ∃ parsed contentStr, extractParse reply = .ok parsed ∧
      contentOf parsed reply = .ok contentStr ∧
      t = { content := trimS contentStr
          , title := titleOf parsed input contentStr
          , metadata := mergedMetadata parsed input model } := by
  cases hp : extractParse reply with
  | error e =>
    rw [tryPS_of_extractParse_err hp] at h
    exact Except.noConfusion h
  | ok parsed =>
    rw [tryPS_of_extractParse_ok hp] at h
    by_cases hn : isNullJ parsed = true
    · rw [if_pos hn] at h
      exact Except.noConfusion h
    · rw [if_neg hn] at h
      cases hc : contentOf parsed reply with
      | error e => rw [hc] at h; exact Except.noConfusion h
      | ok contentStr =>
        rw [hc] at h
        refine ⟨parsed, contentStr, rfl, hc, ?_⟩
        injection h with h'
        exact h'.symm

/-- The metadata of `generateTicket` on the auto-detect path is that of
`parseStructuredResponse` (post-processing only touches the content). -/
theorem generateTicket_auto_metadata {reply model : String} {input : TicketInput}
    (hauto : needsAutoDetect input = true) :
    (generateTicketModel input reply model).metadata =
      (parseStructuredResponse reply model input).metadata := by
  unfold generateTicketModel
  rw [hauto]
  rfl

/-- The content of `generateTicket` on the auto-detect path. -/
theorem generateTicket_auto_content {reply model : String} {input : TicketInput}
    (hauto : needsAutoDetect input = true) :
    (generateTicketModel input reply model).content =
      stripLeadingTitleS (parseStructuredResponse reply model input).content := by
  unfold generateTicketModel
  rw [hauto]
  rfl

/-- The title of `generateTicket` on the auto-detect path. -/
theorem generateTicket_auto_title {reply model : String} {input : TicketInput}
    (hauto : needsAutoDetect input = true) :
    (generateTicketModel input reply model).title =
      (parseStructuredResponse reply model input).title := by
  unfold generateTicketModel
  rw [hauto]
  rfl

/-! ## C2: interpreter totality -/

/-- C2: the Response Interpreter is total: extraction finding no
candidate span degrades to the raw fallback, both parse attempts failing
degrades to the raw fallback, and in general every run either returns
the try block's ticket or the raw fallback — never an error. (In the
model, every exception inside the try block is an `Except.error`
absorbed by the catch, and the catch branch itself is a pure record
construction.) -/
theorem interpreter_totality (reply model : String) (input : TicketInput) :
    (extractCandidate reply.data = none →
      parseStructuredResponse reply model input = rawFallback reply model input) ∧
    (∀ cand e, extractCandidate reply.data = some cand →
      safeParseJSON cand = .error e →
      parseStructuredResponse reply model input = rawFallback reply model input) ∧
    ((∃ t, tryParseStructured reply model input = .ok t ∧
        parseStructuredResponse reply model input = t) ∨
      parseStructuredResponse reply model input = rawFallback reply model input) := by
  refine ⟨fun h => psr_of_error (tryPS_extract_none h),
    fun cand e hc he => psr_of_error (tryPS_parse_error hc he), ?_⟩
  cases h : tryParseStructured reply model input with
  | ok t => exact Or.inl ⟨t, rfl, psr_of_ok h⟩
  | error e => exact Or.inr (psr_of_error h)

/-- Witness for C2 at concrete inputs: a reply with no structured block
degrades to the raw fallback. -/
theorem interpreter_totality_witness :
    parseStructuredResponse "Plain prose, no JSON." "m" ⟨"d", none, none, none, []⟩ =
      rawFallback "Plain prose, no JSON." "m" ⟨"d", none, none, none, []⟩ :=
  (interpreter_totality "Plain prose, no JSON." "m" ⟨"d", none, none, none, []⟩).1 rfl

/-! ## C4: raw fallback -/

/-- C4 counterexample: an auto-detect generation (user supplied `type`
but no `priority`) whose reply has no structured block: the record keeps
the user's `type` (`Bug`, not the claimed hard default `Task`), and the
content is the trimmed reply with its leading heading stripped, not the
trimmed raw reply. -/
theorem raw_fallback_counterexample :
    (generateTicketModel ⟨"d", none, some "Bug", none, []⟩ "## Heading\nBody text" "m").metadata.type
        = "Bug" ∧
    (generateTicketModel ⟨"d", none, some "Bug", none, []⟩ "## Heading\nBody text" "m").content
        = "Body text" ∧
    ¬ ((generateTicketModel ⟨"d", none, some "Bug", none, []⟩ "## Heading\nBody text" "m").metadata.type
          = "Task" ∧
       (generateTicketModel ⟨"d", none, some "Bug", none, []⟩ "## Heading\nBody text" "m").content
          = trimS "## Heading\nBody text") :=
  ⟨rfl, rfl, by intro hcl; exact absurd (rfl.symm.trans hcl.1) (by decide)⟩

/-- C4 (amended): for every auto-detect generation whose raw reply
contains no structured block, the returned record has
`metadata.type = input.type` falling back to `Task` only when the user
supplied none (likewise `priority`/`Medium`), `metadata.labels` the
user's labels, no `aiSuggested` flags, and content equal to the trimmed
raw reply with one leading `##` heading stripped by post-processing. -/
theorem raw_fallback_amended (reply model : String) (input : TicketInput)
    (hauto : needsAutoDetect input = true)
    (hnone : extractCandidate reply.data = none) :
    generateTicketModel input reply model =
      { content := stripLeadingTitleS (trimS reply)
      , title := .str (stringOr input.title (extractTitleS reply)).data
      , metadata :=
          { type := stringOr input.type "Task"
          , priority := stringOr input.priority "Medium"
          , labels := input.labels
          , model := model
          , aiSuggested := none } } := by
  have hpsr := @psr_of_error reply model input _
    (@tryPS_extract_none reply model input hnone)
  unfold generateTicketModel
  rw [hauto]
  simp only [if_true]
  rw [hpsr]
  rfl

/-- Witness for C4 (amended) at concrete inputs. -/
theorem raw_fallback_amended_witness :
    generateTicketModel ⟨"d", none, some "Bug", none, []⟩ "## Heading\nBody text" "m" =
      { content := stripLeadingTitleS (trimS "## Heading\nBody text")
      , title := .str (stringOr none (extractTitleS "## Heading\nBody text")).data
      , metadata :=
          { type := stringOr (some "Bug") "Task"
          , priority := stringOr none "Medium"
          , labels := []
          , model := "m"
          , aiSuggested := none } } :=
  raw_fallback_amended "## Heading\nBody text" "m" ⟨"d", none, some "Bug", none, []⟩
    rfl rfl

/-! ## C5: metadata invariant -/

/-- A validated type is in the enumeration. -/
theorem validateType_mem {v : Option Json} {s : String}
    (h : validateType v = some s) : s ∈ VALID_TYPES := by
  cases v with
  | none => exact Option.noConfusion h
  | some j =>
    cases j with
    | str cs =>
      have h' : (if (⟨cs⟩ : String) ∈ VALID_TYPES then some (⟨cs⟩ : String)
          else none) = some s := h
      by_cases hm : (⟨cs⟩ : String) ∈ VALID_TYPES
      · rw [if_pos hm] at h'
        injection h' with h2
        exact h2 ▸ hm
      · rw [if_neg hm] at h'
        exact Option.noConfusion h' 
    | null => exact Option.noConfusion h
    | bool b => exact Option.noConfusion h
    | num l => exact Option.noConfusion h
    | arr xs => exact Option.noConfusion h
    | obj fs => exact Option.noConfusion h

/-- A validated priority is in the enumeration. -/
theorem validatePriority_mem {v : Option Json} {s : String}
    (h : validatePriority v = some s) : s ∈ VALID_PRIORITIES := by
  cases v with
  | none => exact Option.noConfusion h
  | some j =>
    cases j with
    | str cs =>
      have h' : (if (⟨cs⟩ : String) ∈ VALID_PRIORITIES then some (⟨cs⟩ : String)
          else none) = some s := h
      by_cases hm : (⟨cs⟩ : String) ∈ VALID_PRIORITIES
      · rw [if_pos hm] at h'
        injection h' with h2
        exact h2 ▸ hm
      · rw [if_neg hm] at h'
        exact Option.noConfusion h' 
    | null => exact Option.noConfusion h
    | bool b => exact Option.noConfusion h
    | num l => exact Option.noConfusion h
    | arr xs => exact Option.noConfusion h
    | obj fs => exact Option.noConfusion h

/-- Members of the type enumeration are nonempty strings. -/
theorem mem_VALID_TYPES_ne_empty {s : String} (h : s ∈ VALID_TYPES) : s ≠ "" := by
  simp only [VALID_TYPES, List.mem_cons, List.mem_singleton] at h
  rcases h with rfl | rfl | rfl | rfl | rfl | h <;> first | decide | cases h

/-- Members of the priority enumeration are nonempty strings. -/
theorem mem_VALID_PRIORITIES_ne_empty {s : String} (h : s ∈ VALID_PRIORITIES) :
    s ≠ "" := by
  simp only [VALID_PRIORITIES, List.mem_cons, List.mem_singleton] at h
  rcases h with rfl | rfl | rfl | rfl | h <;> first | decide | cases h

/-- `stringOr` stays inside a set closed under both sides. -/
theorem stringOr_mem (a : Option String) (b : String) (l : List String)
    (hb : b ∈ l) (ha : ∀ s, a = some s → s ≠ "" → s ∈ l) : stringOr a b ∈ l := by
  cases a with
  | none => exact hb
  | some s =>
    by_cases hs : s = ""
    · simpa [stringOr, hs] using hb
    · simpa [stringOr, hs] using ha s rfl hs

/-- The parsed-labels computation never exceeds ten entries. -/
theorem extractLabels_le10 (parsed : Json) : (extractLabels parsed).length ≤ 10 := by
  unfold extractLabels
  cases h : jsonLookup parsed "labels" with
  | none => simp
  | some j =>
    cases j with
    | arr xs => exact List.length_take_le 10 _
    | null => simp
    | bool b => simp
    | num l => simp
    | str s => simp
    | obj fs => simp

/-- The merged metadata satisfies the (amended) invariant. -/
theorem merged_metadata_inv (parsed : Json) (input : TicketInput) (model : String)
    (htype : ∀ s, input.type = some s → s ∈ VALID_TYPES)
    (hprio : ∀ s, input.priority = some s → s ∈ VALID_PRIORITIES)
    (hlab : input.labels.length ≤ 10) :
    (mergedMetadata parsed input model).type ∈ VALID_TYPES ∧
    (mergedMetadata parsed input model).priority ∈ VALID_PRIORITIES ∧
    (mergedMetadata parsed input model).labels.length ≤ 10 := by
  refine ⟨?_, ?_, ?_⟩
  · show stringOr (validateType (jsonLookup parsed "type"))
      (stringOr input.type "Task") ∈ VALID_TYPES
    exact stringOr_mem _ _ _
      (stringOr_mem input.type "Task" _ (by decide) (fun s hs _ => htype s hs))
      (fun s hv _ => validateType_mem hv)
  · show stringOr (validatePriority (jsonLookup parsed "priority"))
      (stringOr input.priority "Medium") ∈ VALID_PRIORITIES
    exact stringOr_mem _ _ _
      (stringOr_mem input.priority "Medium" _ (by decide) (fun s hs _ => hprio s hs))
      (fun s hv _ => validatePriority_mem hv)
  · show (if extractLabels parsed ≠ [] then extractLabels parsed
          else input.labels).length ≤ 10
    by_cases hne : extractLabels parsed ≠ []
    · rw [if_pos hne]
      exact extractLabels_le10 parsed
    · rw [if_neg hne]
      exact hlab

/-- The raw fallback metadata satisfies the (amended) invariant. -/
theorem raw_metadata_inv (reply model : String) (input : TicketInput)
    (htype : ∀ s, input.type = some s → s ∈ VALID_TYPES)
    (hprio : ∀ s, input.priority = some s → s ∈ VALID_PRIORITIES)
    (hlab : input.labels.length ≤ 10) :
    (rawFallback reply model input).metadata.type ∈ VALID_TYPES ∧
    (rawFallback reply model input).metadata.priority ∈ VALID_PRIORITIES ∧
    (rawFallback reply model input).metadata.labels.length ≤ 10 := by
  refine ⟨?_, ?_, hlab⟩
  · exact stringOr_mem input.type "Task" _ (by decide) (fun s hs _ => htype s hs)
  · exact stringOr_mem input.priority "Medium" _ (by decide) (fun s hs _ => hprio s hs)

/-- A truthy optional string is a nonempty `some`. -/
theorem strTruthy_some {o : Option String} (h : strTruthy o = true) :
    ∃ s, o = some s ∧ s ≠ "" := by
  cases o with
  | none => exact Bool.noConfusion h
  | some s =>
    refine ⟨s, rfl, ?_⟩
    simpa [strTruthy] using h

/-- Decomposing `needsAutoDetect input = false`. -/
theorem needsAuto_false {input : TicketInput} (h : needsAutoDetect input = false) :
    strTruthy input.type = true ∧ strTruthy input.priority = true ∧
    input.labels ≠ [] := by
  unfold needsAutoDetect at h
  simp only [Bool.or_eq_false_iff, Bool.not_eq_false', decide_eq_false_iff_not] at h
  exact ⟨h.1.1, h.1.2, h.2⟩

/-- Unfolding `generateTicket` on the fully-specified (non-auto) path. -/
theorem generateTicket_nonauto {reply model : String} {input : TicketInput}
    (h : needsAutoDetect input = false) :
    generateTicketModel input reply model =
      { content := stripLeadingTitleS (trimS reply)
      , title := .str (stringOr input.title (extractTitleS reply)).data
      , metadata :=
          { type := input.type.getD ""
          , priority := input.priority.getD ""
          , labels := input.labels
          , model := model
          , aiSuggested := none } } := by
  unfold generateTicketModel
  rw [h]
  rfl

/-- C5 counterexample: a parsed labels entry `HELLO` (neither lowercase
nor validated) propagates into the returned record, violating the
claimed "each a non-empty lowercase token" invariant. -/
theorem metadata_invariant_counterexample :
    (generateTicketModel ⟨"d", none, none, none, []⟩
      "\x7b\"labels\":[\"HELLO\"],\"content\":\"x\",\"type\":\"Task\",\"priority\":\"Medium\",\"title\":\"t\"\x7d"
      "m").metadata.labels = ["HELLO"] ∧
    ¬ (∀ l ∈ (generateTicketModel ⟨"d", none, none, none, []⟩
        "\x7b\"labels\":[\"HELLO\"],\"content\":\"x\",\"type\":\"Task\",\"priority\":\"Medium\",\"title\":\"t\"\x7d"
        "m").metadata.labels, l ≠ "" ∧ ∀ ch ∈ l.data, ch.isLower = true) := by
  refine ⟨rfl, fun hall => ?_⟩
  have hmem : "HELLO" ∈ (generateTicketModel ⟨"d", none, none, none, []⟩
      "\x7b\"labels\":[\"HELLO\"],\"content\":\"x\",\"type\":\"Task\",\"priority\":\"Medium\",\"title\":\"t\"\x7d"
      "m").metadata.labels := by
    rw [show (generateTicketModel ⟨"d", none, none, none, []⟩
      "\x7b\"labels\":[\"HELLO\"],\"content\":\"x\",\"type\":\"Task\",\"priority\":\"Medium\",\"title\":\"t\"\x7d"
      "m").metadata.labels = ["HELLO"] from rfl]
    exact List.mem_singleton.mpr rfl
  exact absurd ((hall "HELLO" hmem).2 'H' (by decide)) (by decide)

/-- C5 (amended): every record returned by `generateTicket` has
`metadata.type` in {Task, Story, Bug, Spike, Epic} and
`metadata.priority` in {Low, Medium, High, Critical} (invalid parsed
values are discarded by `validateType`/`validatePriority`, and the
caller's input is schema-constrained to the enumerations), and
`metadata.labels` has at most 10 entries given the route schema's cap of
10 on the caller's labels; parsed labels are filtered to strings and
capped at 10, but are NOT validated to be non-empty lowercase tokens. -/
theorem metadata_invariant_amended (reply model : String) (input : TicketInput)
    (htype : ∀ s, input.type = some s → s ∈ VALID_TYPES)
    (hprio : ∀ s, input.priority = some s → s ∈ VALID_PRIORITIES)
    (hlab : input.labels.length ≤ 10) :
    (generateTicketModel input reply model).metadata.type ∈ VALID_TYPES ∧
    (generateTicketModel input reply model).metadata.priority ∈ VALID_PRIORITIES ∧
    (generateTicketModel input reply model).metadata.labels.length ≤ 10 := by
  by_cases hauto : needsAutoDetect input = true
  · rw [generateTicket_auto_metadata hauto]
    cases h : tryParseStructured reply model input with
    | ok t =>
      rw [psr_of_ok h]
      obtain ⟨parsed, cstr, hp, hc, rfl⟩ := tryPS_ok_shape h
      exact merged_metadata_inv parsed input model htype hprio hlab
    | error e =>
      rw [psr_of_error h]
      exact raw_metadata_inv reply model input htype hprio hlab
  · have hfalse : needsAutoDetect input = false := by
      simpa using hauto
    obtain ⟨ht, hpr, _⟩ := needsAuto_false hfalse
    obtain ⟨s, hs, hsne⟩ := strTruthy_some ht
    obtain ⟨p, hp2, hpne⟩ := strTruthy_some hpr
    rw [generateTicket_nonauto hfalse]
    refine ⟨?_, ?_, hlab⟩
    · simpa [hs] using htype s hs
    · simpa [hp2] using hprio p hp2

/-- Witness for C5 (amended) at concrete inputs. -/
theorem metadata_invariant_amended_witness :
    (generateTicketModel ⟨"d", none, none, none, []⟩ "no json" "m").metadata.type
        ∈ VALID_TYPES ∧
    (generateTicketModel ⟨"d", none, none, none, []⟩ "no json" "m").metadata.priority
        ∈ VALID_PRIORITIES ∧
    (generateTicketModel ⟨"d", none, none, none, []⟩ "no json" "m").metadata.labels.length
        ≤ 10 :=
  metadata_invariant_amended "no json" "m" ⟨"d", none, none, none, []⟩
    (fun s hs => Option.noConfusion hs) (fun s hs => Option.noConfusion hs)
    (by decide)

/-! ## C1: merge precedence -/

/-- The merged type when a parsed value validated. -/
theorem mergedMetadata_type_some {parsed : Json} {input : TicketInput}
    {model s : String} (h : validateType (jsonLookup parsed "type") = some s) :
    (mergedMetadata parsed input model).type = s := by
  show stringOr (validateType (jsonLookup parsed "type"))
    (stringOr input.type "Task") = s
  rw [h]
  simp [stringOr, mem_VALID_TYPES_ne_empty (validateType_mem h)]

/-- The merged type when no parsed value validated. -/
theorem mergedMetadata_type_none {parsed : Json} {input : TicketInput}
    {model : String} (h : validateType (jsonLookup parsed "type") = none) :
    (mergedMetadata parsed input model).type = stringOr input.type "Task" := by
  show stringOr (validateType (jsonLookup parsed "type"))
    (stringOr input.type "Task") = _
  rw [h]
  rfl

/-- The merged priority when a parsed value validated. -/
theorem mergedMetadata_priority_some {parsed : Json} {input : TicketInput}
    {model s : String} (h : validatePriority (jsonLookup parsed "priority") = some s) :
    (mergedMetadata parsed input model).priority = s := by
  show stringOr (validatePriority (jsonLookup parsed "priority"))
    (stringOr input.priority "Medium") = s
  rw [h]
  simp [stringOr, mem_VALID_PRIORITIES_ne_empty (validatePriority_mem h)]

/-- The merged priority when no parsed value validated. -/
theorem mergedMetadata_priority_none {parsed : Json} {input : TicketInput}
    {model : String} (h : validatePriority (jsonLookup parsed "priority") = none) :
    (mergedMetadata parsed input model).priority = stringOr input.priority "Medium" := by
  show stringOr (validatePriority (jsonLookup parsed "priority"))
    (stringOr input.priority "Medium") = _
  rw [h]
  rfl

/-- The merged labels. -/
theorem mergedMetadata_labels (parsed : Json) (input : TicketInput) (model : String) :
    (mergedMetadata parsed input model).labels =
      (if extractLabels parsed ≠ [] then extractLabels parsed else input.labels) := rfl

/-- C1 counterexample: the user explicitly supplied `type = Bug` and
`labels = [mine]` (priority missing triggers auto-detect); the parsed
block supplies `Story` and `[api]`, and those win — the claim's
user-over-parsed precedence fails. -/
theorem merge_precedence_counterexample :
    (generateTicketModel ⟨"d", none, some "Bug", none, ["mine"]⟩
      "\x7b\"type\":\"Story\",\"priority\":\"High\",\"labels\":[\"api\"],\"content\":\"Body\",\"title\":\"T\"\x7d"
      "m").metadata.type = "Story" ∧
    (generateTicketModel ⟨"d", none, some "Bug", none, ["mine"]⟩
      "\x7b\"type\":\"Story\",\"priority\":\"High\",\"labels\":[\"api\"],\"content\":\"Body\",\"title\":\"T\"\x7d"
      "m").metadata.labels = ["api"] ∧
    ("Story" : String) ≠ "Bug" ∧ (["api"] : List String) ≠ ["mine"] :=
  ⟨rfl, rfl, by decide, by decide⟩

/-- C1 (amended): on the parsed path the validated parsed value takes
precedence over the user-supplied one for `type` and `priority`
(`detectedX || input.x || default`), and nonempty parsed labels take
precedence over the user's labels; only when the parsed block supplies
no valid value does the user's value apply, with the hard defaults
`Task`/`Medium` and the user's original labels when neither side
supplies one. -/
theorem merge_precedence_amended (reply model : String) (input : TicketInput)
    (t : GeneratedTicket) (parsed : Json)
    (hauto : needsAutoDetect input = true)
    (hok : tryParseStructured reply model input = .ok t)
    (hparse : extractParse reply = .ok parsed) :
    (generateTicketModel input reply model).metadata = t.metadata ∧
    t.metadata = mergedMetadata parsed input model ∧
    (∀ s, validateType (jsonLookup parsed "type") = some s →
      t.metadata.type = s) ∧
    (validateType (jsonLookup parsed "type") = none →
      t.metadata.type = stringOr input.type "Task") ∧
    (∀ s, validatePriority (jsonLookup parsed "priority") = some s →
      t.metadata.priority = s) ∧
    (validatePriority (jsonLookup parsed "priority") = none →
      t.metadata.priority = stringOr input.priority "Medium") ∧
    (extractLabels parsed ≠ [] → t.metadata.labels = extractLabels parsed) ∧
    (extractLabels parsed = [] → t.metadata.labels = input.labels) := by
  obtain ⟨parsed', cstr, hp, hc, rfl⟩ := tryPS_ok_shape hok
  have hpe : parsed' = parsed := by
    have := hp.symm.trans hparse
    injection this
  subst hpe
  have hmeta : (generateTicketModel input reply model).metadata =
      mergedMetadata parsed' input model := by
    rw [generateTicket_auto_metadata hauto, psr_of_ok hok]
  refine ⟨hmeta, rfl, ?_, ?_, ?_, ?_, ?_, ?_⟩
  · intro s hv
    exact mergedMetadata_type_some hv
  · intro hv
    exact mergedMetadata_type_none hv
  · intro s hv
    exact mergedMetadata_priority_some hv
  · intro hv
    exact mergedMetadata_priority_none hv
  · intro hne
    rw [mergedMetadata_labels, if_pos hne]
  · intro heq
    rw [mergedMetadata_labels, if_neg (by simp [heq])]

/-- Witness for C1 (amended) at concrete inputs: the parsed `Spike`
reaches the record. -/
theorem merge_precedence_amended_witness :
    (generateTicketModel ⟨"d2", none, none, none, []⟩
      "\x7b\"type\":\"Spike\",\"priority\":\"Low\",\"labels\":[\"x\"],\"content\":\"c\",\"title\":\"t\"\x7d"
      "m").metadata.type = "Spike" := by
  have h := merge_precedence_amended
    "\x7b\"type\":\"Spike\",\"priority\":\"Low\",\"labels\":[\"x\"],\"content\":\"c\",\"title\":\"t\"\x7d"
    "m" ⟨"d2", none, none, none, []⟩ _ _ rfl rfl rfl
  exact (congrArg TicketMetadata.type h.1).trans (h.2.2.1 "Spike" rfl)

/-! ## C3: the repair pass

The claim quantifies over structured blocks that are valid JSON except
for literal newline / carriage-return / tab characters inside string
values. The family below renders such blocks: flat objects with
string-valued fields, whose keys consist of plain string characters and
whose values consist of plain characters and the three control
characters. `renderObjL false fs` emits the control characters raw (the
defective block), `renderObjL true fs` emits them escaped (the
pre-escaped block). -/

/-- A character that needs no escaping inside a JSON string literal. -/
def plainChar (c : Char) : Bool := c ≠ '"' && c ≠ bsl && decide (32 ≤ c.toNat)

/-- The three control characters the repair pass escapes. -/
def ctl3 (c : Char) : Bool := c = '\n' || c = '\r' || c = '\t'

/-- A value character: plain or one of the three control characters. -/
def vChar (c : Char) : Bool := plainChar c || ctl3 c

/-- A string-literal body, raw or with the control characters escaped. -/
def renderStrBody (escaped : Bool) (v : List Char) : List Char :=
  if escaped then escapeCtl v else v

/-- One `"key":"value"` member. -/
def renderPair (escaped : Bool) (kv : List Char × List Char) : List Char :=
  '"' :: (kv.1 ++ '"' :: ':' :: '"' :: (renderStrBody escaped kv.2 ++ ['"']))

/-- Comma-separated members. -/
def renderPairs (escaped : Bool) : List (List Char × List Char) → List Char
  | [] => []
  | [kv] => renderPair escaped kv
  | kv :: rest => renderPair escaped kv ++ ',' :: renderPairs escaped rest

/-- The rendered flat object. -/
def renderObjL (escaped : Bool) (fs : List (List Char × List Char)) : List Char :=
  lb :: (renderPairs escaped fs ++ [rb])

/-- The JSON value such a block denotes. -/
def objJson (fs : List (List Char × List Char)) : Json :=
  .obj (fs.map fun kv => (kv.1, .str kv.2))

/-- `renderPairs` on two or more members. -/
theorem renderPairs_cons2 (e : Bool) (kv kv2 : List Char × List Char)
    (fs : List (List Char × List Char)) :
    renderPairs e (kv :: kv2 :: fs) =
      renderPair e kv ++ ',' :: renderPairs e (kv2 :: fs) := rfl

/-- `escapeCtl` distributes over cons. -/
theorem escapeCtl_cons (c : Char) (v : List Char) :
    escapeCtl (c :: v) = escCtlChar c ++ escapeCtl v := by
  simp [escapeCtl]

/-- A plain character is left alone by the escaping replacement. -/
theorem escCtlChar_plain (c : Char) (h : plainChar c = true) : escCtlChar c = [c] := by
  have h32 : 32 ≤ c.toNat := by
    simp only [plainChar, Bool.and_eq_true, decide_eq_true_eq] at h
    exact h.2
  have hn : c ≠ '\n' := fun he => absurd (he ▸ h32) (by decide)
  have hr : c ≠ '\r' := fun he => absurd (he ▸ h32) (by decide)
  have ht : c ≠ '\t' := fun he => absurd (he ▸ h32) (by decide)
  simp [escCtlChar, hn, hr, ht]

/-- Escaping a fully plain body is the identity. -/
theorem escapeCtl_plain (v : List Char) (h : ∀ c ∈ v, plainChar c = true) :
    escapeCtl v = v := by
  induction v with
  | nil => rfl
  | cons c v' ih =>
    rw [escapeCtl_cons, escCtlChar_plain c (h c (List.mem_cons_self c v')),
      ih (fun x hx => h x (List.mem_cons_of_mem _ hx))]
    rfl

/-- A control character escapes to a two-character sequence whose escape
decodes back to it. -/
theorem escCtlChar_ctl (c : Char) (h : ctl3 c = true) :
    ∃ e, escCtlChar c = [bsl, e] ∧ simpleEsc e = some c ∧ e ≠ 'u' := by
  rcases (by simpa [ctl3] using h : (c = '\n' ∨ c = '\r') ∨ c = '\t') with (rfl | rfl) | rfl
  · exact ⟨'n', by decide, by decide, by decide⟩
  · exact ⟨'r', by decide, by decide, by decide⟩
  · exact ⟨'t', by decide, by decide, by decide⟩

/-- Value characters are neither quotes nor backslashes. -/
theorem vChar_not_special (c : Char) (h : vChar c = true) : c ≠ '"' ∧ c ≠ bsl := by
  rcases (by simpa [vChar] using h : plainChar c = true ∨ ctl3 c = true) with hp | hc
  · simp only [plainChar, Bool.and_eq_true, decide_eq_true_eq] at hp
    exact ⟨hp.1.1, hp.1.2⟩
  · rcases (by simpa [ctl3] using hc : (c = '\n' ∨ c = '\r') ∨ c = '\t') with
      (rfl | rfl) | rfl <;> exact ⟨by decide, by decide⟩

/-- `parseStrBody` consumes a plain character. -/
theorem parseStrBody_cons_plain (c : Char) (rest2 : List Char)
    (h : plainChar c = true) :
    parseStrBody (c :: rest2) =
      (parseStrBody rest2).map fun p => (c :: p.1, p.2) := by
  simp only [plainChar, Bool.and_eq_true, decide_eq_true_eq] at h
  conv_lhs => unfold parseStrBody
  rw [if_neg h.1.1, if_neg h.1.2, if_neg (Nat.not_lt.mpr h.2)]

/-- `parseStrBody` decodes a simple escape pair. -/
theorem parseStrBody_esc_pair (e c : Char) (rest2 : List Char)
    (hsimp : simpleEsc e = some c) (hne : e ≠ 'u') :
    parseStrBody (bsl :: e :: rest2) =
      (parseStrBody rest2).map fun p => (c :: p.1, p.2) := by
  conv_lhs => unfold parseStrBody
  rw [if_neg (by decide : ¬ (bsl = '"')), if_pos rfl]
  simp only []
  rw [if_neg hne, hsimp]

/-- `parseStrBody` rejects a control character. -/
theorem parseStrBody_cons_ctl (c : Char) (rest : List Char) (h1 : c ≠ '"')
    (h2 : c ≠ bsl) (h3 : c.toNat < 32) :
    parseStrBody (c :: rest) = .error "Bad control character in string literal" := by
  conv_lhs => unfold parseStrBody
  rw [if_neg h1, if_neg h2, if_pos h3]

/-- Parsing the escaped rendering of a value body recovers it exactly. -/
theorem parseStrBody_escaped (v rest : List Char) (h : ∀ c ∈ v, vChar c = true) :
    parseStrBody (escapeCtl v ++ '"' :: rest) = .ok (v, rest) := by
  induction v with
  | nil =>
    rw [show escapeCtl [] = ([] : List Char) from rfl, List.nil_append]
    conv_lhs => unfold parseStrBody
    rw [if_pos rfl]
  | cons c v' ih =>
    have hc := h c (List.mem_cons_self c v')
    have hv' : ∀ x ∈ v', vChar x = true := fun x hx => h x (List.mem_cons_of_mem _ hx)
    rw [escapeCtl_cons, List.append_assoc]
    rcases (by simpa [vChar] using hc : plainChar c = true ∨ ctl3 c = true) with hplain | hctl
    · rw [escCtlChar_plain c hplain, List.singleton_append,
        parseStrBody_cons_plain c _ hplain, ih hv']
      rfl
    · obtain ⟨e, hesc, hse, hneu⟩ := escCtlChar_ctl c hctl
      rw [hesc, show ([bsl, e] : List Char) ++ (escapeCtl v' ++ '"' :: rest) =
        bsl :: e :: (escapeCtl v' ++ '"' :: rest) from rfl,
        parseStrBody_esc_pair e c _ hse hneu, ih hv']
      rfl

/-- Parsing a plain body recovers it exactly. -/
theorem parseStrBody_plainL (v rest : List Char)
    (h : ∀ c ∈ v, plainChar c = true) :
    parseStrBody (v ++ '"' :: rest) = .ok (v, rest) := by
  have h2 : ∀ c ∈ v, vChar c = true := fun c hc => by simp [vChar, h c hc]
  have h3 := parseStrBody_escaped v rest h2
  rwa [escapeCtl_plain v h] at h3

/-- A raw body containing a control character fails to parse (the first
control character is hit before any closing quote). -/
theorem parseStrBody_ctl_fails (v rest : List Char)
    (hv : ∀ c ∈ v, vChar c = true) (hbad : ∃ c ∈ v, ctl3 c = true) :
    ∃ e, parseStrBody (v ++ rest) = .error e := by
  induction v with
  | nil =>
    rcases hbad with ⟨c, hc, _⟩
    cases hc
  | cons c v' ih =>
    by_cases hctl : ctl3 c = true
    · refine ⟨"Bad control character in string literal", ?_⟩
      obtain ⟨hq, hb⟩ := vChar_not_special c (hv c (List.mem_cons_self c v'))
      have h32 : c.toNat < 32 := by
        rcases (by simpa [ctl3] using hctl : (c = '\n' ∨ c = '\r') ∨ c = '\t') with
          (rfl | rfl) | rfl <;> decide
      rw [List.cons_append]
      exact parseStrBody_cons_ctl c _ hq hb h32
    · have hplain : plainChar c = true := by
        rcases ((by simpa [vChar] using hv c (List.mem_cons_self c v')) :
          plainChar c = true ∨ ctl3 c = true) with h | h
        · exact h
        · exact absurd h hctl
      have hbad' : ∃ x ∈ v', ctl3 x = true := by
        rcases hbad with ⟨x, hx, hxc⟩
        rcases List.mem_cons.mp hx with rfl | hmem
        · exact absurd hxc hctl
        · exact ⟨x, hmem, hxc⟩
      obtain ⟨e, he⟩ := ih (fun x hx => hv x (List.mem_cons_of_mem _ hx)) hbad'
      refine ⟨e, ?_⟩
      rw [List.cons_append, parseStrBody_cons_plain c _ hplain, he]
      rfl

/-- `matchStrLit` closes at the first unescaped quote. -/
theorem matchStrLit_noquote (v rest : List Char)
    (h : ∀ c ∈ v, c ≠ '"' ∧ c ≠ bsl) :
    matchStrLit (v ++ '"' :: rest) = some (v, rest) := by
  induction v with
  | nil =>
    rw [List.nil_append]
    conv_lhs => unfold matchStrLit
    rw [if_pos rfl]
  | cons c v' ih =>
    obtain ⟨h1, h2⟩ := h c (List.mem_cons_self c v')
    rw [List.cons_append]
    conv_lhs => unfold matchStrLit
    rw [if_neg h1, if_neg h2, ih (fun x hx => h x (List.mem_cons_of_mem _ hx)),
      Option.map_some']

/-- `renderStrBody` with escaping off. -/
theorem renderStrBody_false (v : List Char) : renderStrBody false v = v := rfl

/-- `renderStrBody` with escaping on. -/
theorem renderStrBody_true (v : List Char) : renderStrBody true v = escapeCtl v := rfl

/-- `splitAtQuote` finds the first quote. -/
theorem splitAtQuote_boundary (pre rest : List Char) (h : '"' ∉ pre) :
    splitAtQuote (pre ++ '"' :: rest) = some (pre, rest) := by
  induction pre with
  | nil =>
    rw [List.nil_append]
    conv_lhs => unfold splitAtQuote
    rw [if_pos rfl]
  | cons c p ih =>
    have hc : c ≠ '"' := by rintro rfl; exact h (List.mem_cons_self _ _)
    rw [List.cons_append]
    conv_lhs => unfold splitAtQuote
    rw [if_neg hc, ih (fun hm => h (List.mem_cons_of_mem _ hm)), Option.map_some']

/-- `splitAtQuote` fails on quote-free input. -/
theorem splitAtQuote_none (cs : List Char) (h : '"' ∉ cs) : splitAtQuote cs = none := by
  induction cs with
  | nil => rfl
  | cons c rest ih =>
    have hc : c ≠ '"' := by rintro rfl; exact h (List.mem_cons_self _ _)
    conv_lhs => unfold splitAtQuote
    rw [if_neg hc, ih (fun hm => h (List.mem_cons_of_mem _ hm))]
    rfl

/-- The repair scan leaves quote-free input unchanged. -/
theorem repairQ_noquote (fuel : Nat) (cs : List Char) (h : '"' ∉ cs) :
    repairQ fuel cs = cs := by
  cases fuel with
  | zero => rfl
  | succ f =>
    conv_lhs => unfold repairQ
    rw [splitAtQuote_none cs h]

/-- One step of the repair scan over a closed string literal: the body is
escaped and the scan resumes after the closing quote. -/
theorem repairQ_step (fuel : Nat) (pre body rest : List Char)
    (hpre : '"' ∉ pre) (hbody : ∀ c ∈ body, c ≠ '"' ∧ c ≠ bsl) :
    repairQ (fuel + 1) (pre ++ '"' :: (body ++ '"' :: rest)) =
      pre ++ '"' :: (escapeCtl body ++ '"' :: repairQ fuel rest) := by
  conv_lhs => unfold repairQ
  rw [splitAtQuote_boundary pre _ hpre]
  simp only []
  rw [matchStrLit_noquote body rest hbody]

/-- A rendered member is at least two characters long. -/
theorem renderPair_len (e : Bool) (kv : List Char × List Char) :
    2 ≤ (renderPair e kv).length := by
  simp only [renderPair, List.length_cons, List.length_append]
  omega

/-- Twice the member count bounds the rendered members length. -/
theorem two_len_le_renderPairs (e : Bool) (fs : List (List Char × List Char)) :
    2 * fs.length ≤ (renderPairs e fs).length := by
  induction fs with
  | nil => simp [renderPairs]
  | cons kv rest ih =>
    cases rest with
    | nil =>
      have h1 := renderPair_len e kv
      simp only [renderPairs, List.length_cons, List.length_nil]
      omega
    | cons r rs =>
      have h1 := renderPair_len e kv
      rw [renderPairs_cons2]
      simp only [List.length_append, List.length_cons]
      simp only [List.length_cons] at ih
      omega

/-- The repair scan over rendered members escapes every value body and
leaves keys (all plain) unchanged. -/
theorem repairQ_pairs : ∀ (fs : List (List Char × List Char)) (fuel : Nat)
    (pre suffix : List Char), '"' ∉ pre → '"' ∉ suffix →
    (∀ kv ∈ fs, (∀ c ∈ kv.1, plainChar c = true) ∧ (∀ c ∈ kv.2, vChar c = true)) →
    repairQ (2 * fs.length + fuel) (pre ++ (renderPairs false fs ++ suffix)) =
      pre ++ (renderPairs true fs ++ suffix)
  | [], fuel, pre, suffix, hpre, hsuf, _ => by
    simp only [renderPairs, List.nil_append, List.length_nil, Nat.mul_zero, Nat.zero_add]
    exact repairQ_noquote fuel _ (fun hm => by
      rcases List.mem_append.mp hm with h | h
      exacts [hpre h, hsuf h])
  | [kv], fuel, pre, suffix, hpre, hsuf, hfs => by
    obtain ⟨hkey, hval⟩ := hfs kv (List.mem_cons_self kv [])
    have hbody : ∀ c ∈ kv.2, c ≠ '"' ∧ c ≠ bsl := fun c hc => vChar_not_special c (hval c hc)
    have hkeyb : ∀ c ∈ kv.1, c ≠ '"' ∧ c ≠ bsl := fun c hc => by
      have h := hkey c hc
      simp only [plainChar, Bool.and_eq_true, decide_eq_true_eq] at h
      exact ⟨h.1.1, h.1.2⟩
    rw [show (renderPairs false [kv] ++ suffix : List Char) =
        '"' :: (kv.1 ++ '"' :: ':' :: '"' :: (kv.2 ++ '"' :: suffix)) from by
      simp [renderPairs, renderPair, renderStrBody]]
    rw [show (renderPairs true [kv] ++ suffix : List Char) =
        '"' :: (kv.1 ++ '"' :: ':' :: '"' :: (escapeCtl kv.2 ++ '"' :: suffix)) from by
      simp [renderPairs, renderPair, renderStrBody]]
    rw [show 2 * List.length [kv] + fuel = (fuel + 1) + 1 from by
      simp only [List.length_cons, List.length_nil]; omega]
    rw [repairQ_step (fuel + 1) pre kv.1 _ hpre hkeyb]
    rw [show (':' :: '"' :: (kv.2 ++ '"' :: suffix) : List Char) =
        [':'] ++ '"' :: (kv.2 ++ '"' :: suffix) from rfl]
    rw [repairQ_step fuel [':'] kv.2 suffix (by decide) hbody]
    rw [repairQ_noquote fuel suffix hsuf, escapeCtl_plain kv.1 hkey]
    rfl
  | kv :: r :: rs, fuel, pre, suffix, hpre, hsuf, hfs => by
    obtain ⟨hkey, hval⟩ := hfs kv (List.mem_cons_self kv (r :: rs))
    have hbody : ∀ c ∈ kv.2, c ≠ '"' ∧ c ≠ bsl := fun c hc => vChar_not_special c (hval c hc)
    have hkeyb : ∀ c ∈ kv.1, c ≠ '"' ∧ c ≠ bsl := fun c hc => by
      have h := hkey c hc
      simp only [plainChar, Bool.and_eq_true, decide_eq_true_eq] at h
      exact ⟨h.1.1, h.1.2⟩
    rw [show (renderPairs false (kv :: r :: rs) ++ suffix : List Char) =
        '"' :: (kv.1 ++ '"' :: ':' :: '"' :: (kv.2 ++ '"' ::
          (',' :: (renderPairs false (r :: rs) ++ suffix)))) from by
      simp [renderPairs_cons2, renderPair, renderStrBody]]
    rw [show (renderPairs true (kv :: r :: rs) ++ suffix : List Char) =
        '"' :: (kv.1 ++ '"' :: ':' :: '"' :: (escapeCtl kv.2 ++ '"' ::
          (',' :: (renderPairs true (r :: rs) ++ suffix)))) from by
      simp [renderPairs_cons2, renderPair, renderStrBody]]
    rw [show 2 * List.length (kv :: r :: rs) + fuel =
        ((2 * List.length (r :: rs) + fuel) + 1) + 1 from by
      simp only [List.length_cons]; omega]
    rw [repairQ_step ((2 * List.length (r :: rs) + fuel) + 1) pre kv.1 _ hpre hkeyb]
    rw [show (':' :: '"' :: (kv.2 ++ '"' ::
        (',' :: (renderPairs false (r :: rs) ++ suffix))) : List Char) =
        [':'] ++ '"' :: (kv.2 ++ '"' ::
        (',' :: (renderPairs false (r :: rs) ++ suffix))) from rfl]
    rw [repairQ_step (2 * List.length (r :: rs) + fuel) [':'] kv.2 _ (by decide) hbody]
    rw [show (',' :: (renderPairs false (r :: rs) ++ suffix) : List Char) =
        [','] ++ (renderPairs false (r :: rs) ++ suffix) from rfl]
    rw [repairQ_pairs (r :: rs) fuel [','] suffix (by decide) hsuf
      (fun kv2 h => hfs kv2 (List.mem_cons_of_mem _ h))]
    rw [escapeCtl_plain kv.1 hkey]
    rfl

/-- `skipWsJ` stops at a non-whitespace head. -/
theorem skipWsJ_cons (c : Char) (rest : List Char) (h : isJsonWs c = false) :
    skipWsJ (c :: rest) = c :: rest := by
  simp [skipWsJ, List.dropWhile_cons, h]

/-- `parseVal` on an escaped string literal. -/
theorem parseVal_str (g : Nat) (v rest : List Char) (hv : ∀ c ∈ v, vChar c = true) :
    parseVal (g + 1) ('"' :: (escapeCtl v ++ '"' :: rest)) = .ok (.str v, rest) := by
  conv_lhs => unfold parseVal
  rw [skipWsJ_cons _ _ (by decide)]
  simp only []
  rw [if_neg (by decide), if_neg (by decide), if_pos trivial, parseStrBody_escaped v rest hv]
  rfl

/-- `parseVal` on a plain string literal. -/
theorem parseVal_str_plain (g : Nat) (v rest : List Char)
    (hv : ∀ c ∈ v, plainChar c = true) :
    parseVal (g + 1) ('"' :: (v ++ '"' :: rest)) = .ok (.str v, rest) := by
  have h := parseVal_str g v rest (fun c hc => by simp [vChar, hv c hc])
  rwa [escapeCtl_plain v hv] at h

/-- `parseVal` fails on a string literal with a raw control character. -/
theorem parseVal_str_bad (g : Nat) (v rest : List Char)
    (hv : ∀ c ∈ v, vChar c = true) (hbad : ∃ c ∈ v, ctl3 c = true) :
    ∃ e, parseVal (g + 1) ('"' :: (v ++ '"' :: rest)) = .error e := by
  obtain ⟨e, he⟩ := parseStrBody_ctl_fails v ('"' :: rest) hv hbad
  refine ⟨e, ?_⟩
  conv_lhs => unfold parseVal
  rw [skipWsJ_cons _ _ (by decide)]
  simp only []
  rw [if_neg (by decide), if_neg (by decide), if_pos trivial, he]
  rfl

/-- Rendered members start with a quote. -/
theorem renderPairs_head (e : Bool) (kv : List Char × List Char)
    (rest : List (List Char × List Char)) :
    ∃ t, renderPairs e (kv :: rest) = '"' :: t := by
  cases rest with
  | nil => exact ⟨_, rfl⟩
  | cons r rs => exact ⟨_, rfl⟩

/-- `parseMembersF` recovers every member of an escaped rendering. -/
theorem parseMembersF_good : ∀ (fs : List (List Char × List Char)) (g fuel : Nat)
    (rest2 : List Char), fs.length ≤ fuel →
    (∀ kv ∈ fs, (∀ c ∈ kv.1, plainChar c = true) ∧ (∀ c ∈ kv.2, vChar c = true)) →
    fs ≠ [] →
    parseMembersF (parseVal (g + 1)) fuel (renderPairs true fs ++ rb :: rest2) =
      .ok (fs.map (fun kv => (kv.1, Json.str kv.2)), rest2)
  | [], _, _, _, _, _, hne => absurd rfl hne
  | [kv], g, fuel, rest2, hlen, hfs, _ => by
    obtain ⟨hkey, hval⟩ := hfs kv (List.mem_cons_self kv [])
    cases fuel with
    | zero => exact absurd hlen (by simp)
    | succ f =>
      rw [show (renderPairs true [kv] ++ rb :: rest2 : List Char) =
          '"' :: (kv.1 ++ '"' :: ':' :: '"' :: (escapeCtl kv.2 ++ '"' :: rb :: rest2)) from by
        simp [renderPairs, renderPair, renderStrBody]]
      conv_lhs => unfold parseMembersF
      rw [skipWsJ_cons _ _ (by decide)]
      simp only []
      rw [if_pos trivial, parseStrBody_plainL kv.1 _ hkey]
      simp only []
      rw [skipWsJ_cons _ _ (by decide)]
      simp only []
      rw [if_pos trivial, parseVal_str g kv.2 _ hval]
      simp only []
      rw [skipWsJ_cons _ _ (by decide)]
      simp only []
      rw [if_neg (by decide), if_pos trivial]
      rfl
  | kv :: r :: rs, g, fuel, rest2, hlen, hfs, _ => by
    obtain ⟨hkey, hval⟩ := hfs kv (List.mem_cons_self kv (r :: rs))
    cases fuel with
    | zero => exact absurd hlen (by simp)
    | succ f =>
      rw [show (renderPairs true (kv :: r :: rs) ++ rb :: rest2 : List Char) =
          '"' :: (kv.1 ++ '"' :: ':' :: '"' :: (escapeCtl kv.2 ++ '"' :: ',' ::
            (renderPairs true (r :: rs) ++ rb :: rest2))) from by
        simp [renderPairs_cons2, renderPair, renderStrBody]]
      conv_lhs => unfold parseMembersF
      rw [skipWsJ_cons _ _ (by decide)]
      simp only []
      rw [if_pos trivial, parseStrBody_plainL kv.1 _ hkey]
      simp only []
      rw [skipWsJ_cons _ _ (by decide)]
      simp only []
      rw [if_pos trivial, parseVal_str g kv.2 _ hval]
      simp only []
      rw [skipWsJ_cons _ _ (by decide)]
      simp only []
      rw [if_pos trivial]
      rw [parseMembersF_good (r :: rs) g f rest2
        (by simp only [List.length_cons] at hlen ⊢; omega)
        (fun kv2 h => hfs kv2 (List.mem_cons_of_mem _ h)) (by simp)]
      rfl

/-- `parseMembersF` fails on a raw rendering containing a control
character in some value. -/
theorem parseMembersF_bad : ∀ (fs : List (List Char × List Char)) (g fuel : Nat)
    (rest2 : List Char),
    (∀ kv ∈ fs, (∀ c ∈ kv.1, plainChar c = true) ∧ (∀ c ∈ kv.2, vChar c = true)) →
    (∃ kv ∈ fs, ∃ c ∈ kv.2, ctl3 c = true) →
    ∃ e, parseMembersF (parseVal (g + 1)) fuel (renderPairs false fs ++ rb :: rest2) =
      .error e
  | [], _, _, _, _, hbad => absurd hbad (by simp)
  | [kv], g, fuel, rest2, hfs, hbad => by
    obtain ⟨hkey, hval⟩ := hfs kv (List.mem_cons_self kv [])
    have hb : ∃ c ∈ kv.2, ctl3 c = true := by
      rcases hbad with ⟨kv2, hm, hc⟩
      obtain rfl : kv2 = kv := List.mem_singleton.mp hm
      exact hc
    cases fuel with
    | zero => exact ⟨"Out of fuel", rfl⟩
    | succ f =>
      rw [show (renderPairs false [kv] ++ rb :: rest2 : List Char) =
          '"' :: (kv.1 ++ '"' :: ':' :: '"' :: (kv.2 ++ '"' :: rb :: rest2)) from by
        simp [renderPairs, renderPair, renderStrBody]]
      obtain ⟨e, he⟩ := parseVal_str_bad g kv.2 (rb :: rest2) hval hb
      refine ⟨e, ?_⟩
      conv_lhs => unfold parseMembersF
      rw [skipWsJ_cons _ _ (by decide)]
      simp only []
      rw [if_pos trivial, parseStrBody_plainL kv.1 _ hkey]
      simp only []
      rw [skipWsJ_cons _ _ (by decide)]
      simp only []
      rw [if_pos trivial, he]
  | kv :: r :: rs, g, fuel, rest2, hfs, hbad => by
    obtain ⟨hkey, hval⟩ := hfs kv (List.mem_cons_self kv (r :: rs))
    cases fuel with
    | zero => exact ⟨"Out of fuel", rfl⟩
    | succ f =>
      rw [show (renderPairs false (kv :: r :: rs) ++ rb :: rest2 : List Char) =
          '"' :: (kv.1 ++ '"' :: ':' :: '"' :: (kv.2 ++ '"' :: ',' ::
            (renderPairs false (r :: rs) ++ rb :: rest2))) from by
        simp [renderPairs_cons2, renderPair, renderStrBody]]
      by_cases hb : ∃ c ∈ kv.2, ctl3 c = true
      · obtain ⟨e, he⟩ := parseVal_str_bad g kv.2
          (',' :: (renderPairs false (r :: rs) ++ rb :: rest2)) hval hb
        refine ⟨e, ?_⟩
        conv_lhs => unfold parseMembersF
        rw [skipWsJ_cons _ _ (by decide)]
        simp only []
        rw [if_pos trivial, parseStrBody_plainL kv.1 _ hkey]
        simp only []
        rw [skipWsJ_cons _ _ (by decide)]
        simp only []
        rw [if_pos trivial, he]
      · have hplain : ∀ c ∈ kv.2, plainChar c = true := fun c hc => by
          rcases ((by simpa [vChar] using hval c hc) :
            plainChar c = true ∨ ctl3 c = true) with h | h
          · exact h
          · exact absurd ⟨c, hc, h⟩ hb
        have hbad2 : ∃ kv2 ∈ r :: rs, ∃ c ∈ kv2.2, ctl3 c = true := by
          rcases hbad with ⟨kv2, hm, hc⟩
          rcases List.mem_cons.mp hm with rfl | hm2
          · exact absurd hc hb
          · exact ⟨kv2, hm2, hc⟩
        obtain ⟨e, he⟩ := parseMembersF_bad (r :: rs) g f rest2
          (fun kv2 h => hfs kv2 (List.mem_cons_of_mem _ h)) hbad2
        refine ⟨e, ?_⟩
        conv_lhs => unfold parseMembersF
        rw [skipWsJ_cons _ _ (by decide)]
        simp only []
        rw [if_pos trivial, parseStrBody_plainL kv.1 _ hkey]
        simp only []
        rw [skipWsJ_cons _ _ (by decide)]
        simp only []
        rw [if_pos trivial, parseVal_str_plain g kv.2 _ hplain]
        simp only []
        rw [skipWsJ_cons _ _ (by decide)]
        simp only []
        rw [if_pos trivial, he]


/-- `parseVal` recovers the escaped rendering of a nonempty flat object. -/
theorem parseVal_renderObj (g : Nat) (fs : List (List Char × List Char))
    (hfs : ∀ kv ∈ fs, (∀ c ∈ kv.1, plainChar c = true) ∧ (∀ c ∈ kv.2, vChar c = true))
    (hne : fs ≠ []) :
    parseVal (g + 2) (renderObjL true fs) = .ok (objJson fs, []) := by
  cases fs with
  | nil => exact absurd rfl hne
  | cons kv rest =>
    obtain ⟨t, ht⟩ := renderPairs_head true kv rest
    have hsw : skipWsJ (renderPairs true (kv :: rest) ++ rb :: []) =
        '"' :: (t ++ rb :: []) := by
      rw [ht, List.cons_append, skipWsJ_cons _ _ (by decide)]
    have h2 := two_len_le_renderPairs true (kv :: rest)
    rw [show renderObjL true (kv :: rest) =
        lb :: (renderPairs true (kv :: rest) ++ rb :: []) from rfl]
    conv_lhs => unfold parseVal
    rw [skipWsJ_cons _ _ (by decide)]
    simp only []
    rw [if_pos trivial, hsw]
    simp only []
    rw [if_neg (by decide)]
    rw [parseMembersF_good (kv :: rest) g
      ((renderPairs true (kv :: rest) ++ rb :: []).length + 1) []
      (by simp only [List.length_append, List.length_cons, List.length_nil] at h2 ⊢; omega)
      hfs (by simp)]
    rfl

/-- Attempt 2: `JSON.parse` succeeds on the escaped rendering. -/
theorem jsonParse_renderGood (fs : List (List Char × List Char))
    (hfs : ∀ kv ∈ fs, (∀ c ∈ kv.1, plainChar c = true) ∧ (∀ c ∈ kv.2, vChar c = true))
    (hne : fs ≠ []) :
    jsonParseL (renderObjL true fs) = .ok (objJson fs) := by
  unfold jsonParseL
  rw [show (renderObjL true fs).length + 1 =
      (renderPairs true fs ++ [rb]).length + 2 from by simp [renderObjL]]
  rw [parseVal_renderObj ((renderPairs true fs ++ [rb]).length) fs hfs hne]
  show (if skipWsJ [] = [] then Except.ok (objJson fs)
    else Except.error "Unexpected non-whitespace character after JSON data") =
    Except.ok (objJson fs)
  rw [if_pos (show skipWsJ ([] : List Char) = [] from rfl)]

/-- `parseVal` fails on the raw rendering when some value holds a control
character. -/
theorem parseVal_renderObj_bad (g : Nat) (fs : List (List Char × List Char))
    (hfs : ∀ kv ∈ fs, (∀ c ∈ kv.1, plainChar c = true) ∧ (∀ c ∈ kv.2, vChar c = true))
    (hbad : ∃ kv ∈ fs, ∃ c ∈ kv.2, ctl3 c = true) :
    ∃ e, parseVal (g + 2) (renderObjL false fs) = .error e := by
  cases fs with
  | nil => exact absurd hbad (by simp)
  | cons kv rest =>
    obtain ⟨t, ht⟩ := renderPairs_head false kv rest
    have hsw : skipWsJ (renderPairs false (kv :: rest) ++ rb :: []) =
        '"' :: (t ++ rb :: []) := by
      rw [ht, List.cons_append, skipWsJ_cons _ _ (by decide)]
    obtain ⟨e, he⟩ := parseMembersF_bad (kv :: rest) g
      ((renderPairs false (kv :: rest) ++ rb :: []).length + 1) [] hfs hbad
    refine ⟨e, ?_⟩
    rw [show renderObjL false (kv :: rest) =
        lb :: (renderPairs false (kv :: rest) ++ rb :: []) from rfl]
    conv_lhs => unfold parseVal
    rw [skipWsJ_cons _ _ (by decide)]
    simp only []
    rw [if_pos trivial, hsw]
    simp only []
    rw [if_neg (by decide), he]

/-- Attempt 1: `JSON.parse` fails on the raw rendering. -/
theorem jsonParse_renderBad (fs : List (List Char × List Char))
    (hfs : ∀ kv ∈ fs, (∀ c ∈ kv.1, plainChar c = true) ∧ (∀ c ∈ kv.2, vChar c = true))
    (hbad : ∃ kv ∈ fs, ∃ c ∈ kv.2, ctl3 c = true) :
    ∃ e, jsonParseL (renderObjL false fs) = .error e := by
  obtain ⟨e, he⟩ := parseVal_renderObj_bad ((renderPairs false fs ++ [rb]).length)
    fs hfs hbad
  refine ⟨e, ?_⟩
  unfold jsonParseL
  rw [show (renderObjL false fs).length + 1 =
      (renderPairs false fs ++ [rb]).length + 2 from by simp [renderObjL]]
  rw [he]

/-- The repair replacement turns the raw rendering into the escaped one. -/
theorem repair_renderBad (fs : List (List Char × List Char))
    (hfs : ∀ kv ∈ fs, (∀ c ∈ kv.1, plainChar c = true) ∧ (∀ c ∈ kv.2, vChar c = true)) :
    repairL (renderObjL false fs) = renderObjL true fs := by
  have h2 := two_len_le_renderPairs false fs
  have hkey : (renderObjL false fs).length =
      2 * fs.length + ((renderObjL false fs).length - 2 * fs.length) := by
    simp only [renderObjL, List.length_cons, List.length_append]
    omega
  unfold repairL
  rw [hkey]
  rw [show renderObjL false fs = [lb] ++ (renderPairs false fs ++ [rb]) from rfl]
  rw [repairQ_pairs fs _ [lb] [rb] (by decide) (by decide) hfs]
  rfl
/-- C3: Repair step of `safeParseJSON`. For every flat structured block
(plain keys, string-valued fields) that is valid JSON except for literal
newline, carriage-return or tab characters inside its string values: the
direct parse (attempt 1) fails, the repair pass rewrites the raw block
into the same block with those characters pre-escaped, the retried parse
(attempt 2) succeeds, and the value `safeParseJSON` recovers from the
raw block equals the value denoted by the pre-escaped block — every
field, content included, byte-identical. -/
theorem repair_round_trip (fs : List (List Char × List Char))
    (hfs : ∀ kv ∈ fs, (∀ c ∈ kv.1, plainChar c = true) ∧ (∀ c ∈ kv.2, vChar c = true))
    (hbad : ∃ kv ∈ fs, ∃ c ∈ kv.2, ctl3 c = true) :
    (∃ e, jsonParseL (renderObjL false fs) = .error e) ∧
    repairL (renderObjL false fs) = renderObjL true fs ∧
    jsonParseL (renderObjL true fs) = .ok (objJson fs) ∧
    safeParseJSON (renderObjL false fs) = .ok (objJson fs) := by
  have hne : fs ≠ [] := by
    rcases hbad with ⟨kv, hm, _⟩
    rintro rfl
    cases hm
  obtain ⟨e, he⟩ := jsonParse_renderBad fs hfs hbad
  have hrep := repair_renderBad fs hfs
  have hgood := jsonParse_renderGood fs hfs hne
  refine ⟨⟨e, he⟩, hrep, hgood, ?_⟩
  unfold safeParseJSON
  rw [he]
  simp only []
  rw [hrep, hgood]

/-- Witness: a two-field block whose content value holds a literal
newline is recovered by `safeParseJSON` with the newline intact. -/
theorem repair_round_trip_witness :
    safeParseJSON (renderObjL false [(lc "title", lc "T"),
        (lc "content", lc "line1" ++ '\n' :: lc "line2")]) =
      .ok (objJson [(lc "title", lc "T"),
        (lc "content", lc "line1" ++ '\n' :: lc "line2")]) :=
  (repair_round_trip [(lc "title", lc "T"),
      (lc "content", lc "line1" ++ '\n' :: lc "line2")]
    (by decide) (by decide)).2.2.2

end TicketCore
